import Mathlib

/-!
Verification of pyrpm (scripts/oldpyrpm.py) against its specification.

Shallow embedding: Python functions are translated into executable Lean
definitions.  Python strings become Lean String / List Char, Python ints
become Nat / Int, byte strings become List Nat, and Python dicts become
insertion-ordered association lists (a deterministic refinement of the
unspecified Python 2 dict iteration order; every place the embedding
relies on this is a place the source iterates over a dict).
-/

namespace Pyrpm

/-! ## Version comparator (oldpyrpm.py: _xisalpha / _xisdigit / _xisalnum,
stringCompare, labelCompare, rangeCompare) -/

/-- oldpyrpm.py _xisalpha -/
def xisalpha (c : Char) : Bool :=
  (decide (c ≥ 'a') && decide (c ≤ 'z')) || (decide (c ≥ 'A') && decide (c ≤ 'Z'))

/-- oldpyrpm.py _xisdigit -/
def xisdigit (c : Char) : Bool :=
  decide (c ≥ '0') && decide (c ≤ '9')

/-- oldpyrpm.py _xisalnum -/
def xisalnum (c : Char) : Bool :=
  xisalpha c || xisdigit c

/-- Python cmp on strings (by character ordinals, shorter prefix is smaller). -/
def pyCmp : List Char → List Char → Int
  | [], [] => 0
  | [], _ :: _ => -1
  | _ :: _, [] => 1
  | a :: as_, b :: bs => if a < b then -1 else if b < a then 1 else pyCmp as_ bs

/-- The main loop of oldpyrpm.py stringCompare, acting on the unread
suffixes of the two strings (indices i1/i2 of the source become the
dropped prefixes).  The loop consumes at least one character of str1 per
iteration, so any fuel exceeding the length of the first suffix computes
the loop to completion (stringCompareAux_fuel); the 0-fuel value is never
reached from stringCompare. -/
def stringCompareAux : Nat → List Char → List Char → Int
  | 0, _, _ => 0
  | fuel + 1, t1, t2 =>
    if t1 = [] ∨ t2 = [] then
      -- post-loop: if i1 == lenstr1: (0 if i2 == lenstr2 else -1) else 1
      if t1 = [] then (if t2 = [] then 0 else -1) else 1
    else
      -- remove leading separators
      let d1 := t1.dropWhile (fun c => !xisalnum c)
      let d2 := t2.dropWhile (fun c => !xisalnum c)
      -- search digits or alpha chars (Python: j1 < lenstr1 and _xisdigit(str1[j1]))
      if d1 ≠ [] ∧ xisdigit (d1.headD ' ') = true then
        let r1 := d1.takeWhile xisdigit
        let r2 := d2.takeWhile xisdigit
        -- j1 == i1 impossible here (head of d1 is a digit); j2 == i2 means isnum, 1
        if r2 = [] then 1
        else
          -- ignore leading "0" for numbers
          let z1 := r1.dropWhile (fun c => c = '0')
          let z2 := r2.dropWhile (fun c => c = '0')
          -- longer size of digits wins
          if z1.length > z2.length then 1
          else if z2.length > z1.length then -1
          else
            let x := pyCmp z1 z2
            if x ≠ 0 then x
            else stringCompareAux fuel (d1.drop r1.length) (d2.drop r2.length)
      else
        let r1 := d1.takeWhile xisalpha
        let r2 := d2.takeWhile xisalpha
        if r1 = [] then -1
        else if r2 = [] then -1
        else
          let x := pyCmp r1 r2
          if x ≠ 0 then x
          else stringCompareAux fuel (d1.drop r1.length) (d2.drop r2.length)

/-- oldpyrpm.py stringCompare (rpm/lib/rpmver.c rpmvercmp). -/
def stringCompare (str1 str2 : String) : Int :=
  if str1 = str2 then 0
  else stringCompareAux (str1.data.length + 1) str1.data str2.data

/-- An epoch-version-release triple of strings. -/
abbrev EVR := String × String × String

/-- oldpyrpm.py labelCompare: EVR compare, release comparison removed when
one release string is missing. -/
def labelCompare (e1 e2 : EVR) : Int :=
  let p : EVR × EVR :=
    if e2.2.2 = "" then ((e1.1, e1.2.1, ""), e2)
    else if e1.2.2 = "" then (e1, (e2.1, e2.2.1, ""))
    else (e1, e2)
  let f1 := p.1
  let f2 := p.2
  let r := stringCompare f1.1 f2.1
  if r = 0 then
    let r2 := stringCompare f1.2.1 f2.2.1
    if r2 = 0 then stringCompare f1.2.2 f2.2.2 else r2
  else r

/-! ## RPMSENSE flag constants (oldpyrpm.py lines 475-530) -/

def RPMSENSE_SERIAL : Nat := 1 <<< 0
def RPMSENSE_LESS : Nat := 1 <<< 1
def RPMSENSE_GREATER : Nat := 1 <<< 2
def RPMSENSE_EQUAL : Nat := 1 <<< 3
def RPMSENSE_PREREQ : Nat := 1 <<< 6
def RPMSENSE_INTERP : Nat := 1 <<< 8
def RPMSENSE_SCRIPT_PRE : Nat := (1 <<< 9) ||| RPMSENSE_PREREQ
def RPMSENSE_SCRIPT_POST : Nat := (1 <<< 10) ||| RPMSENSE_PREREQ
def RPMSENSE_SCRIPT_PREUN : Nat := (1 <<< 11) ||| RPMSENSE_PREREQ
def RPMSENSE_SCRIPT_POSTUN : Nat := (1 <<< 12) ||| RPMSENSE_PREREQ
def RPMSENSE_SCRIPT_VERIFY : Nat := 1 <<< 13
def RPMSENSE_FIND_REQUIRES : Nat := 1 <<< 14
def RPMSENSE_SCRIPT_PREP : Nat := 1 <<< 20
def RPMSENSE_SCRIPT_BUILD : Nat := 1 <<< 21
def RPMSENSE_SCRIPT_INSTALL : Nat := 1 <<< 22
def RPMSENSE_SCRIPT_CLEAN : Nat := 1 <<< 23
def RPMSENSE_RPMLIB : Nat := (1 <<< 24) ||| RPMSENSE_PREREQ
def RPMSENSE_KEYRING : Nat := 1 <<< 26

def _ALL_REQUIRES_MASK : Nat :=
  RPMSENSE_INTERP ||| RPMSENSE_SCRIPT_PRE ||| RPMSENSE_SCRIPT_POST |||
  RPMSENSE_SCRIPT_PREUN ||| RPMSENSE_SCRIPT_POSTUN ||| RPMSENSE_SCRIPT_VERIFY |||
  RPMSENSE_FIND_REQUIRES ||| RPMSENSE_SCRIPT_PREP ||| RPMSENSE_SCRIPT_BUILD |||
  RPMSENSE_SCRIPT_INSTALL ||| RPMSENSE_SCRIPT_CLEAN ||| RPMSENSE_RPMLIB |||
  RPMSENSE_KEYRING

/-- oldpyrpm.py _notpre: clear the PREREQ bit.  Python uses x & ~PREREQ; on
Nat we subtract the bit after masking it in, which is the same operation. -/
def _notpre (x : Nat) : Nat := x - (x &&& RPMSENSE_PREREQ)

def _INSTALL_ONLY_MASK : Nat :=
  _notpre (RPMSENSE_SCRIPT_PRE ||| RPMSENSE_SCRIPT_POST ||| RPMSENSE_RPMLIB |||
    RPMSENSE_KEYRING)

def _ERASE_ONLY_MASK : Nat :=
  _notpre (RPMSENSE_SCRIPT_PREUN ||| RPMSENSE_SCRIPT_POSTUN)

/-- oldpyrpm.py isLegacyPreReq -/
def isLegacyPreReq (x : Nat) : Bool := x &&& _ALL_REQUIRES_MASK = RPMSENSE_PREREQ

/-- oldpyrpm.py isInstallPreReq -/
def isInstallPreReq (x : Nat) : Bool := x &&& _INSTALL_ONLY_MASK ≠ 0

/-- oldpyrpm.py isErasePreReq -/
def isErasePreReq (x : Nat) : Bool := x &&& _ERASE_ONLY_MASK ≠ 0

/-- oldpyrpm.py rangeCompare: whether two (flag, EVR) ranges intersect.
The Python function returns 1 or 0; we return the corresponding Bool. -/
def rangeCompare (flag1 : Nat) (evr1 : EVR) (flag2 : Nat) (evr2 : EVR) : Bool :=
  let sense := labelCompare evr1 evr2
  if sense < 0 then
    (flag1 &&& RPMSENSE_GREATER ≠ 0) || (flag2 &&& RPMSENSE_LESS ≠ 0)
  else if sense > 0 then
    (flag1 &&& RPMSENSE_LESS ≠ 0) || (flag2 &&& RPMSENSE_GREATER ≠ 0)
  else
    ((flag1 &&& RPMSENSE_EQUAL ≠ 0) && (flag2 &&& RPMSENSE_EQUAL ≠ 0)) ||
    ((flag1 &&& RPMSENSE_LESS ≠ 0) && (flag2 &&& RPMSENSE_LESS ≠ 0)) ||
    ((flag1 &&& RPMSENSE_GREATER ≠ 0) && (flag2 &&& RPMSENSE_GREATER ≠ 0))

/-! ## Dependency flags and operationFlag (oldpyrpm.py lines 2734-3007) -/

def SOFT : Nat := 0
def HARD : Nat := 1
def VIRTUAL : Nat := 2

def OP_INSTALL : String := "install"
def OP_UPDATE : String := "update"
def OP_ERASE : String := "erase"
def OP_FRESHEN : String := "freshen"

/-- oldpyrpm.py operationFlag: dependency hardness for a RPMSENSE flag
during an operation. -/
def operationFlag (flag : Nat) (operation : String) : Nat :=
  if isLegacyPreReq flag ||
      (operation = OP_ERASE && isErasePreReq flag) ||
      (operation ≠ OP_ERASE && isInstallPreReq flag) then HARD
  else SOFT

/-! ## evrSplit (oldpyrpm.py lines 2647-2655) -/

/-- Index of the first occurrence of character c in l, as Python str.find
(-1 if absent). -/
def pyFind (c : Char) : List Char → Int
  | [] => -1
  | a :: as_ => if a = c then 0 else
      let r := pyFind c as_
      if r = -1 then -1 else r + 1

/-- oldpyrpm.py evrSplit: split an EVR string into epoch, version, release. -/
def evrSplit (evr : String) : EVR :=
  let l := evr.data
  let i := pyFind ':' l
  let epoch := if i ≠ -1 then String.mk (l.take i.toNat) else "0"
  let start := (i + 1).toNat
  let jrel := pyFind '-' (l.drop start)
  if jrel ≠ -1 then
    let j := start + jrel.toNat
    (epoch, String.mk ((l.drop start).take (j - start)), String.mk (l.drop (j + 1)))
  else
    (epoch, String.mk (l.drop start), "")

/-! ## File list assembly (oldpyrpm.py ReadRpm.getFilenames, lines 1723-1733) -/

/-- The header fields of an rpm package record that getFilenames consults.
A None Python value is Option.none. -/
structure FileTags where
  oldfilenames : Option (List String)
  basenames : Option (List String)
  dirnames : List String
  dirindexes : List Nat
deriving DecidableEq

/-- oldpyrpm.py ReadRpm.getFilenames.  Out-of-range list indexing would
raise IndexError in Python; the embedding totalizes it with getD, and the
theorems assume the well-formedness invariants under which getD never
falls back to its default. -/
def getFilenames (pkg : FileTags) : List String :=
  match pkg.oldfilenames with
  | some ofn => ofn
  | none =>
    match pkg.basenames with
    | none => []
    | some bn =>
      (List.range bn.length).map (fun i =>
        (pkg.dirnames.getD (pkg.dirindexes.getD i 0) "") ++ bn.getD i "")

/-! ## Association-list model of Python dicts.

Python dicts are modelled as association lists holding the insertion
order of their keys; lookup, overwrite-in-place, delete and setdefault
mirror the dict operations used by the source. -/

/-- dict lookup (d.get(k) / d[k]). -/
def dlookup {κ α : Type} [DecidableEq κ] (k : κ) : List (κ × α) → Option α
  | [] => none
  | (k2, v) :: rest => if k2 = k then some v else dlookup k rest

/-- dict store d[k] = v: overwrite in place, new keys appended at the end. -/
def dinsert {κ α : Type} [DecidableEq κ] (k : κ) (v : α) : List (κ × α) → List (κ × α)
  | [] => [(k, v)]
  | (k2, v2) :: rest => if k2 = k then (k2, v) :: rest else (k2, v2) :: dinsert k v rest

/-- dict delete (del d[k]). -/
def ddelete {κ α : Type} [DecidableEq κ] (k : κ) : List (κ × α) → List (κ × α)
  | [] => []
  | (k2, v2) :: rest => if k2 = k then rest else (k2, v2) :: ddelete k rest

/-- In-place update of the value stored under k, no-op when k is absent
(the source only does this when the key is known to be present). -/
def dmodify {κ α : Type} [DecidableEq κ] (k : κ) (f : α → α) : List (κ × α) → List (κ × α)
  | [] => []
  | (k2, v2) :: rest => if k2 = k then (k2, f v2) :: rest else (k2, v2) :: dmodify k f rest

/-- dict d.setdefault(k, dflt) restricted to its effect on the dict. -/
def dsetdefault {κ α : Type} [DecidableEq κ] (k : κ) (dflt : α) (d : List (κ × α)) :
    List (κ × α) :=
  if (dlookup k d).isSome then d else d ++ [(k, dflt)]

/-- Python list.remove: delete the first occurrence of x. -/
def eraseFirst {α : Type} [DecidableEq α] (x : α) : List α → List α
  | [] => []
  | a :: as_ => if a = x then as_ else a :: eraseFirst x as_

/-! ## Filename index (oldpyrpm.py FilenamesList, lines 2585-2643) -/

/-- Index of the last occurrence of c in l, as Python str.rfind (-1 if
absent). -/
def pyRFind (c : Char) (l : List Char) : Int :=
  match pyFind c l.reverse with
  | -1 => -1
  | r => (l.length : Int) - 1 - r

/-- posixpath.split: split a path at the final slash; trailing slashes
are stripped from the head unless it consists only of slashes. -/
def pySplitPath (p : String) : String × String :=
  let l := p.data
  let i := (pyRFind '/' l + 1).toNat
  let head := l.take i
  let tail := l.drop i
  let head2 :=
    if head ≠ [] ∧ head.any (fun c => c ≠ '/') then
      (head.reverse.dropWhile (fun c => c = '/')).reverse
    else head
  (String.mk head2, String.mk tail)

/-- Normalize a dirname to end in a slash
(oldpyrpm.py: if dirname[-1:] != "/": dirname += "/"). -/
def slashTerminate (dirname : String) : String :=
  if dirname.data.getLast? ≠ some '/' then dirname ++ "/" else dirname

/-- oldpyrpm.py genBasenames2: split a list of full filenames into
parallel basename and slash-terminated dirname lists. -/
def genBasenames2 (oldfilenames : List String) : List String × List String :=
  (oldfilenames.map (fun f => (pySplitPath f).2),
   oldfilenames.map (fun f => slashTerminate (pySplitPath f).1))

/-- A package as seen by the filename index and the resolver: an identity
(Python object identity becomes a numeric id) plus the file tags. -/
structure RpmPackage where
  id : Nat
  tags : FileTags
deriving DecidableEq

/-- An entry of a FilenamesList bucket: (pkg, index) when
checkfileconflicts is on, a bare pkg otherwise (the index is none). -/
abbrev FnEntry := Nat × Option Nat

/-- oldpyrpm.py FilenamesList: dirname => basename => list of entries. -/
structure FilenamesList where
  checkfileconflicts : Bool
  path : List (String × List (String × List FnEntry))

/-- The (basenames, dirnames) pair the FilenamesList methods derive from a
package: from basenames/dirindexes/dirnames when basenames is present,
else from oldfilenames; none when neither is present.  Out-of-range
dirindexes would raise IndexError in Python; getD totalizes them. -/
def fnlNames (pkg : RpmPackage) : Option (List String × List String) :=
  match pkg.tags.basenames with
  | some basenames =>
    some (basenames, pkg.tags.dirindexes.map (fun di => pkg.tags.dirnames.getD di ""))
  | none =>
    match pkg.tags.oldfilenames with
    | none => none
    | some ofn => some (genBasenames2 ofn)

/-- The dirnames whose buckets addPkg pre-creates with setdefault. -/
def fnlSetdefaultDirs (pkg : RpmPackage) : List String :=
  match pkg.tags.basenames with
  | some _ => pkg.tags.dirnames
  | none =>
    match pkg.tags.oldfilenames with
    | none => []
    | some ofn => (genBasenames2 ofn).2

/-- path[dirnames[i]].setdefault(basenames[i], []).append(entry).
Python raises KeyError when the dirname bucket is missing; on the
well-formed inputs of the theorems it is always present (created by the
setdefault pass), and the embedding creates it on demand. -/
def bucketAppend (path : List (String × List (String × List FnEntry)))
    (dirname basename : String) (e : FnEntry) :
    List (String × List (String × List FnEntry)) :=
  let bucket := (dlookup dirname path).getD []
  let entries := (dlookup basename bucket).getD []
  dinsert dirname (dinsert basename (entries ++ [e]) bucket) path

/-- path[dirnames[i]][basenames[i]].remove(entry), totalized: a missing
bucket or entry (KeyError / ValueError in Python) leaves the map as is. -/
def bucketRemove (path : List (String × List (String × List FnEntry)))
    (dirname basename : String) (e : FnEntry) :
    List (String × List (String × List FnEntry)) :=
  dmodify dirname (fun bucket => dmodify basename (fun l => eraseFirst e l) bucket) path

/-- The entry list stored under (dirname, basename), empty when either
level is missing (the lookup path of searchDependency). -/
def bucketGet (path : List (String × List (String × List FnEntry)))
    (d b : String) : List FnEntry :=
  (dlookup b ((dlookup d path).getD [])).getD []

/-- oldpyrpm.py FilenamesList.addPkg. -/
def fnlAddPkg (fl : FilenamesList) (pkg : RpmPackage) : FilenamesList :=
  match fnlNames pkg with
  | none => fl
  | some (basenames, dirnames) =>
    let path1 := (fnlSetdefaultDirs pkg).foldl (fun p d => dsetdefault d [] p) fl.path
    let path2 := (List.range basenames.length).foldl (fun p i =>
      bucketAppend p (dirnames.getD i "") (basenames.getD i "")
        (pkg.id, if fl.checkfileconflicts then some i else none)) path1
    { fl with path := path2 }

/-- oldpyrpm.py FilenamesList.removePkg. -/
def fnlRemovePkg (fl : FilenamesList) (pkg : RpmPackage) : FilenamesList :=
  match fnlNames pkg with
  | none => fl
  | some (basenames, dirnames) =>
    let path2 := (List.range basenames.length).foldl (fun p i =>
      bucketRemove p (dirnames.getD i "") (basenames.getD i "")
        (pkg.id, if fl.checkfileconflicts then some i else none)) fl.path
    { fl with path := path2 }

/-- oldpyrpm.py FilenamesList.searchDependency: the ids of the packages
providing the file name.  In Python the conflict-mode entries are
(pkg, index) pairs mapped to r[0], and the bare mode stores pkg objects
returned as-is; both become the first component here. -/
def fnlSearch (fl : FilenamesList) (name : String) : List Nat :=
  let (dirname0, basename) := pySplitPath name
  let dirname := slashTerminate dirname0
  let ret := (dlookup basename (((dlookup dirname fl.path)).getD [])).getD []
  ret.map (fun r => r.1)

/-! ## Dependency resolver lookup (oldpyrpm.py searchDependency lines
2669-2689, RpmResolver.searchDependency lines 2727-2731) -/

/-- provides index: name => list of (flag, version, owner id). -/
abbrev ProvidesList := List (String × List (Nat × String × Nat))

/-- Module-level searchDependency of oldpyrpm.py: owners in
mydeps[name] matching the (flag, version) range.  The strict-mode branch
only prints a warning; the candidate is appended either way. -/
def searchDependency (name : String) (flag : Nat) (version : String)
    (mydeps : ProvidesList) : List Nat :=
  let deps := (dlookup name mydeps).getD []
  let evr := evrSplit version
  deps.foldl (fun ret fvr =>
    let (f, v, rpm) := fvr
    if ret.contains rpm then ret
    else if version = "" || rangeCompare flag evr f (evrSplit v) then ret ++ [rpm]
    else if v = "" then ret ++ [rpm]
    else ret) []

/-- The resolver state consulted by searchDependency: the provides index
plus the filename index. -/
structure RpmResolver where
  provides_list : ProvidesList
  filenames_list : FilenamesList

/-- oldpyrpm.py RpmResolver.searchDependency.  name[0] raises IndexError
on an empty name in Python; the embedding treats the head of an empty
name as matching nothing. -/
def resolverSearchDep (r : RpmResolver) (name : String) (flag : Nat)
    (version : String) : List Nat :=
  let s := searchDependency name flag version r.provides_list
  if name.data.head? = some '/' ∧ version = "" then
    s ++ fnlSearch r.filenames_list name
  else s

/-! ## Header codec: writeHeader (oldpyrpm.py lines 990-1058) -/

def RPM_CHAR : Nat := 1
def RPM_INT8 : Nat := 2
def RPM_INT16 : Nat := 3
def RPM_INT32 : Nat := 4
def RPM_INT64 : Nat := 5
def RPM_STRING : Nat := 6
def RPM_BIN : Nat := 7
def RPM_STRING_ARRAY : Nat := 8
def RPM_I18NSTRING : Nat := 9
def RPM_ARGSTRING : Nat := 12
def RPM_GROUP : Nat := 13

/-- Big-endian byte string of v, n bytes (struct.pack truncated mod 256^n). -/
def beBytes : Nat → Nat → List Nat
  | 0, _ => []
  | n + 1, v => beBytes n (v / 256) ++ [v % 256]

/-- pack("!4I", a, b, c, d): one 16-byte index entry. -/
def pack4I (a b c d : Nat) : List Nat :=
  beBytes 4 a ++ beBytes 4 b ++ beBytes 4 c ++ beBytes 4 d

/-- The bytes of a Python byte string (chars are opaque bytes). -/
def strBytes (s : String) : List Nat := s.data.map Char.toNat

/-- A tag value as passed to writeHeader.  The Python value is dynamically
typed; the constructors cover the shapes the tag types dispatch on
(integer vectors, a single string, a string list, raw bytes). -/
inductive TagValue where
  | ints (l : List Int)
  | str (s : String)
  | strList (l : List String)
  | bin (b : List Nat)
deriving DecidableEq

/-- Python len(value). -/
def pyLen : TagValue → Nat
  | .ints l => l.length
  | .str s => s.data.length
  | .strList l => l.length
  | .bin b => b.length

/-- The integer vector behind a value (writeHeader applies this under the
integer tag types, where a mismatch would be a Python TypeError). -/
def asInts : TagValue → List Int
  | .ints l => l
  | _ => []

/-- Serialized store bytes of one value at type ttype, together with the
emitted count and the alignment padding (writeHeader main dispatch).
signedFlag is taghash[tagnum][3] & 8. -/
def serializeValue (ttype : Nat) (signedFlag : Bool) (value : TagValue)
    (offset : Nat) : List Nat × Nat × Nat :=
  let count := pyLen value
  if ttype = RPM_INT32 then
    -- pack("!%di"/"!%dI"): two's complement big-endian either way
    let data := (asInts value).flatMap (fun v =>
      if signedFlag then beBytes 4 (v % (2 ^ 32 : Nat)).toNat
      else beBytes 4 (v % (2 ^ 32 : Nat)).toNat)
    (data, count, (4 - offset % 4) % 4)
  else if ttype = RPM_STRING then
    (strBytes (match value with | .str s => s | _ => "") ++ [0], 1, 0)
  else if ttype = RPM_STRING_ARRAY ∨ ttype = RPM_I18NSTRING then
    let data := (match value with | .strList l => l | _ => []).flatMap
      (fun s => strBytes s ++ [0])
    (data, count, 0)
  else if ttype = RPM_BIN then
    ((match value with | .bin b => b | _ => []), count, 0)
  else if ttype = RPM_INT16 then
    ((asInts value).flatMap (fun v => beBytes 2 (v % (2 ^ 16 : Nat)).toNat),
      count, (2 - offset % 2) % 2)
  else if ttype = RPM_INT8 ∨ ttype = RPM_CHAR then
    ((asInts value).flatMap (fun v => beBytes 1 (v % (2 ^ 8 : Nat)).toNat), count, 0)
  else if ttype = RPM_INT64 then
    ((asInts value).flatMap (fun v => beBytes 8 (v % (2 ^ 64 : Nat)).toNat),
      count, (8 - offset % 8) % 8)
  else
    -- unknown type: unreachable for registry tags (Python would NameError)
    ([], count, 0)

/-- ARGSTRING and GROUP resolution of writeHeader: ARGSTRING becomes
STRING or STRING_ARRAY depending on the runtime value, GROUP becomes
I18NSTRING or the rpmgroup override (0 models Python None). -/
def resolveType (ttype : Nat) (value : TagValue) (rpmgroup : Nat) : Nat :=
  if ttype = RPM_ARGSTRING then
    match value with
    | .str _ => RPM_STRING
    | _ => RPM_STRING_ARRAY
  else if ttype = RPM_GROUP then
    if rpmgroup ≠ 0 then rpmgroup else RPM_I18NSTRING
  else ttype

/-- Stable ascending comparison of Python tuples (tagnum, tagname). -/
def tagPairLe (a b : Nat × String) : Bool :=
  a.1 < b.1 || (a.1 = b.1 && pyCmp a.2.data b.2.data ≤ 0)

/-- Stable insertion of x after all elements ≤ x. -/
def insortTag (x : Nat × String) : List (Nat × String) → List (Nat × String)
  | [] => [x]
  | y :: ys => if tagPairLe y x then y :: insortTag x ys else x :: y :: ys

/-- Python list.sort on (tagnum, tagname) pairs (stable, ascending). -/
def sortTags (l : List (Nat × String)) : List (Nat × String) :=
  l.foldl (fun acc x => insortTag x acc) []

/-- The first classification loop of writeHeader: split the keys of tags
into normal tags (stags1), install keys (stags2) and the region tag
(stags3), then emit stags1 sorted, the region tag, and stags2 sorted
(stags1.extend(stags3); stags1.extend(stags2)). -/
def writeHeaderOrder (numOf : String → Nat) (region : String)
    (skip_tags : List String) (useinstall : Bool) (install_keys : List String)
    (tagnames : List String) : List (Nat × String) :=
  let cls := tagnames.foldl (fun acc tagname =>
    let (s1, s2, s3) := acc
    let tagnum := numOf tagname
    if tagname = region then (s1, s2, s3 ++ [(tagnum, tagname)])
    else if skip_tags.contains tagname then (s1, s2, s3)
    else if useinstall && install_keys.contains tagname then
      (s1, s2 ++ [(tagnum, tagname)], s3)
    else (s1 ++ [(tagnum, tagname)], s2, s3)) (([], [], []) :
      List (Nat × String) × List (Nat × String) × List (Nat × String))
  sortTags cls.1 ++ cls.2.2 ++ sortTags cls.2.1

/-- One iteration of the serialization loop of writeHeader: serialize the
value of one (tagnum, tagname) pair, append its store bytes (after any
alignment padding), and record its 16-byte index entry -- at the front of
the index for the region tag, at the back for every other tag. -/
def whStep (tags : List (String × TagValue)) (typeOf : Nat → Nat)
    (signedOf : Nat → Bool) (region : String) (rpmgroup : Nat)
    (acc : Nat × List (List Nat) × List (List Nat)) (ts : Nat × String) :
    Nat × List (List Nat) × List (List Nat) :=
  let (offset, store, indexdata) := acc
  let (tagnum, tagname) := ts
  let value := (dlookup tagname tags).getD (.bin [])
  let ttype := resolveType (typeOf tagnum) value rpmgroup
  let (data, count, pad) := serializeValue ttype (signedOf tagnum) value offset
  let offset1 := offset + pad
  let store1 := if pad ≠ 0 then store ++ [List.replicate pad 0] else store
  let index := pack4I tagnum ttype offset1 count
  let offset2 := offset1 + data.length
  let store2 := store1 ++ [data]
  if tagname = region then (offset2, store2, index :: indexdata)
  else (offset2, store2, indexdata ++ [index])

/-- The serialization loop of writeHeader over the emit order: returns
(offset, store chunks, index entries); the region tag's index entry is
inserted at the front, all others are appended. -/
def writeHeaderLoop (tags : List (String × TagValue)) (typeOf : Nat → Nat)
    (signedOf : Nat → Bool) (region : String) (rpmgroup : Nat)
    (stags : List (Nat × String)) : Nat × List (List Nat) × List (List Nat) :=
  stags.foldl (whStep tags typeOf signedOf region rpmgroup) (0, [], [])

/-- oldpyrpm.py writeHeader: returns (indexNo, storeSize, index bytes,
store bytes). -/
def writeHeader (tags : List (String × TagValue)) (numOf : String → Nat)
    (typeOf : Nat → Nat) (signedOf : Nat → Bool) (region : String)
    (skip_tags : List String) (useinstall : Bool) (install_keys : List String)
    (rpmgroup : Nat) : Nat × Nat × List Nat × List Nat :=
  let stags := writeHeaderOrder numOf region skip_tags useinstall install_keys
    (tags.map (fun t => t.1))
  let (_, store, indexdata) := writeHeaderLoop tags typeOf signedOf region rpmgroup stags
  let storeBytes := store.flatten
  (stags.length, storeBytes.length, indexdata.flatten, storeBytes)

/-- Modelled from the spec (claim C7 wording): the same writeHeader but
with emit order normal tags, then install keys, then the region tag last,
so that the region marker's store bytes land at the back of the store.
Used only to witness that the code's emit order differs. -/
def writeHeaderSpecOrder (tags : List (String × TagValue)) (numOf : String → Nat)
    (typeOf : Nat → Nat) (signedOf : Nat → Bool) (region : String)
    (skip_tags : List String) (useinstall : Bool) (install_keys : List String)
    (rpmgroup : Nat) : Nat × Nat × List Nat × List Nat :=
  let tagnames := tags.map (fun t => t.1)
  let cls := tagnames.foldl (fun acc tagname =>
    let (s1, s2, s3) := acc
    let tagnum := numOf tagname
    if tagname = region then (s1, s2, s3 ++ [(tagnum, tagname)])
    else if skip_tags.contains tagname then (s1, s2, s3)
    else if useinstall && install_keys.contains tagname then
      (s1, s2 ++ [(tagnum, tagname)], s3)
    else (s1 ++ [(tagnum, tagname)], s2, s3)) (([], [], []) :
      List (Nat × String) × List (Nat × String) × List (Nat × String))
  let stags := sortTags cls.1 ++ sortTags cls.2.1 ++ cls.2.2
  let (_, store, indexdata) := writeHeaderLoop tags typeOf signedOf region rpmgroup stags
  let storeBytes := store.flatten
  (stags.length, storeBytes.length, indexdata.flatten, storeBytes)

/-- Per-tag linear emission of writeHeader's serialization loop: for each
(tagnum, tagname) of the emit order, the store chunk (alignment padding
then data bytes) and the 16-byte index entry, offsets threaded left to
right.  Declarative counterpart of the loop, used to state C7. -/
def whItems (tags : List (String × TagValue)) (typeOf : Nat → Nat)
    (signedOf : Nat → Bool) (rpmgroup : Nat) :
    List (Nat × String) → Nat → List ((Nat × String) × List Nat × List Nat)
  | [], _ => []
  | (tagnum, tagname) :: rest, offset =>
    let value := (dlookup tagname tags).getD (.bin [])
    let ttype := resolveType (typeOf tagnum) value rpmgroup
    let (data, count, pad) := serializeValue ttype (signedOf tagnum) value offset
    ((tagnum, tagname), List.replicate pad 0 ++ data,
        pack4I tagnum ttype (offset + pad) count)
      :: whItems tags typeOf signedOf rpmgroup rest (offset + pad + data.length)

/-- Modelled from the amended claim C7 wording: the emit order is the
normal tags sorted by (number, name), then the region tag, then the
install-only tags sorted; the store is the per-tag chunks in that emit
order (so the region bytes precede the install-only bytes), and the index
is the region marker's 16-byte entry followed by the entries of all other
tags in emit order. -/
def writeHeaderSpec (tags : List (String × TagValue)) (numOf : String → Nat)
    (typeOf : Nat → Nat) (signedOf : Nat → Bool) (region : String)
    (skip_tags : List String) (useinstall : Bool) (install_keys : List String)
    (rpmgroup : Nat) : Nat × Nat × List Nat × List Nat :=
  let tagnames := tags.map (fun t => t.1)
  let normals := (tagnames.filter (fun t =>
    !(t == region) && !skip_tags.contains t &&
      !(useinstall && install_keys.contains t))).map (fun t => (numOf t, t))
  let installs := (tagnames.filter (fun t =>
    !(t == region) && !skip_tags.contains t &&
      (useinstall && install_keys.contains t))).map (fun t => (numOf t, t))
  let stags := sortTags normals ++ [(numOf region, region)] ++ sortTags installs
  let items := whItems tags typeOf signedOf rpmgroup stags 0
  let store := (items.map (fun it => it.2.1)).flatten
  let regionIdx :=
    ((items.filter (fun it => it.1.2 == region)).map (fun it => it.2.2)).flatten
  let otherIdx :=
    ((items.filter (fun it => !(it.1.2 == region))).map (fun it => it.2.2)).flatten
  (stags.length, store.length, regionIdx ++ otherIdx, store)

/-! ## Header reading and digest input (oldpyrpm.py ReadRpm.__readIndex
lines 1441-1457, ReadRpm.__doVerify lines 2286-2303) -/

/-- doRead(fd, n): n bytes or a raised error on short read. -/
def doRead (n : Nat) (bytes : List Nat) : Option (List Nat × List Nat) :=
  if bytes.length < n then none else some (bytes.take n, bytes.drop n)

/-- The 8-byte header magic 8E AD E8 01 00 00 00 00. -/
def headerMagic : List Nat := [0x8e, 0xad, 0xe8, 0x01, 0, 0, 0, 0]

/-- unpack("!I") of big-endian bytes. -/
def beToNat (l : List Nat) : Nat := l.foldl (fun a b => a * 256 + b) 0

/-- The parts of one parsed header kept in self.sigdata / self.hdrdata:
indexNo, storeSize, the 16 magic+count bytes (hdrdata[2]), the index
bytes (hdrdata[3]) and the store bytes (hdrdata[4]). -/
structure HdrData where
  indexNo : Nat
  storeSize : Nat
  intro16 : List Nat
  fmt : List Nat
  fmt2 : List Nat
deriving DecidableEq

/-- oldpyrpm.py ReadRpm.__readIndex (file case, rpmdb=None): parse one
header off the byte stream, returning the parsed parts and the rest of
the stream.  pad is 8 for the signature header and 1 for the main
header. -/
def readIndex (pad : Nat) (bytes : List Nat) : Option (HdrData × List Nat) :=
  match doRead 16 bytes with
  | none => none
  | some (data, rest) =>
    let magic := data.take 8
    let indexNo := beToNat ((data.drop 8).take 4)
    let storeSize := beToNat (data.drop 12)
    if magic ≠ headerMagic ∨ indexNo < 1 then none
    else
      match doRead (16 * indexNo) rest with
      | none => none
      | some (fmt, rest2) =>
        match doRead storeSize rest2 with
        | none => none
        | some (fmt2, rest3) =>
          if pad = 1 then some (⟨indexNo, storeSize, data, fmt, fmt2⟩, rest3)
          else
            match doRead ((pad - storeSize % pad) % pad) rest3 with
            | none => none
            | some (_, rest4) => some (⟨indexNo, storeSize, data, fmt, fmt2⟩, rest4)

/-- The byte stream fed to the package md5 in ReadRpm.__doVerify:
ctx.update(hdrdata[2]); ctx.update(hdrdata[3]); ctx.update(hdrdata[4]);
then every remaining byte of the file. -/
def md5Input (hdr : HdrData) (restOfFile : List Nat) : List Nat :=
  hdr.intro16 ++ hdr.fmt ++ hdr.fmt2 ++ restOfFile

/-! ## Transaction orderer (oldpyrpm.py Relation / RpmRelations /
RpmOrderer.genRelations, lines 2734-3080).

Packages are identified by numeric ids.  RpmRelations' HashList of
package => Relation becomes one insertion-ordered association list
(HashList keeps exactly a key list plus a hash).  The while loops of the
source become fuel-indexed recursions returning none when the fuel runs
out; _genOrder already returns None on its error paths, so every theorem
is conditioned on a some result. -/

/-- oldpyrpm.py Relation: pre maps predecessor package => flag
(HARD/SOFT/VIRTUAL bits), post maps successor package => 1 or VIRTUAL. -/
structure Relation where
  pre : List (Nat × Nat)
  post : List (Nat × Nat)
deriving DecidableEq

def emptyRelation : Relation := ⟨[], []⟩

/-- oldpyrpm.py RpmRelations: the dependency graph plus the record of
relations dropped while breaking loops. -/
structure RpmRelations where
  graph : List (Nat × Relation)
  dropped : List (Nat × List Nat)
deriving DecidableEq

/-- self[pkg] (defaulting to an empty relation where Python would get
None; the source only looks up present keys). -/
def getRel (st : RpmRelations) (p : Nat) : Relation :=
  (dlookup p st.graph).getD emptyRelation

/-- oldpyrpm.py RpmRelations.removeRelation. -/
def removeRelation (st : RpmRelations) (pkg : Nat) : RpmRelations :=
  let rel := getRel st pkg
  let g1 := rel.pre.foldl (fun g pr =>
    dmodify pr.1 (fun r => { r with post := ddelete pkg r.post }) g) st.graph
  let g2 := rel.post.foldl (fun g po =>
    dmodify po.1 (fun r => { r with pre := ddelete pkg r.pre }) g) g1
  { st with graph := ddelete pkg g2 }

/-- The inner scan of separatePostLeafNodes: walk the node list by index,
removing every node with an empty post set and pushing it on the front of
last. -/
def separateScan : Nat → RpmRelations → List Nat → Nat → Bool →
    Option (RpmRelations × List Nat × Bool)
  | 0, _, _, _, _ => none
  | fuel + 1, st, last, i, found =>
    if h : i < st.graph.length then
      let pr := st.graph.get ⟨i, h⟩
      if pr.2.post.isEmpty then
        separateScan fuel (removeRelation st pr.1) (pr.1 :: last) i true
      else
        separateScan fuel st last (i + 1) found
    else some (st, last, found)

/-- oldpyrpm.py RpmRelations.separatePostLeafNodes: repeat the scan until
a full pass removes nothing or the graph is empty. -/
def separatePostLeafNodes : Nat → RpmRelations → List Nat →
    Option (RpmRelations × List Nat)
  | 0, _, _ => none
  | fuel + 1, st, last =>
    if st.graph.isEmpty then some (st, last)
    else
      match separateScan fuel st last 0 false with
      | none => none
      | some (st2, last2, found) =>
        if found then separatePostLeafNodes fuel st2 last2 else some (st2, last2)

/-- oldpyrpm.py RpmRelations.getNextLeafNode: pick the node with empty
pre and the largest post (first wins ties), remove it from the graph. -/
def getNextLeafNode (st : RpmRelations) : Option Nat × RpmRelations :=
  let next := st.graph.foldl (fun acc pr =>
    if pr.2.pre.isEmpty && (match acc with
      | none => true
      | some q => decide (pr.2.post.length > (q : Nat × Nat).2)) then
      some (pr.1, pr.2.post.length)
    else acc) (none : Option (Nat × Nat))
  match next with
  | some q => (some q.1, removeRelation st q.1)
  | none => (none, st)

/-- Python list.index (first position; length when absent, which the
source never hits). -/
def listIndex (x : Nat) : List Nat → Nat
  | [] => 0
  | a :: as_ => if a = x then 0 else listIndex x as_ + 1

/-- oldpyrpm.py RpmRelations._detectLoops: DFS from pkg; path is the root
to pkg path, loops and used thread through the walk.  The for p in
self[pkg].pre loop becomes a fold threading (loops, used); recursion
depth is fuel-bounded (none on exhaustion, propagated to _genOrder's
None). -/
def dfsVisit : Nat → RpmRelations → List Nat → Nat → List (List Nat) →
    List Nat → Option (List (List Nat) × List Nat)
  | 0, _, _, _, _, _ => none
  | fuel + 1, st, path, pkg, loops, used =>
    let used2 := if used.contains pkg then used else used ++ [pkg]
    (getRel st pkg).pre.foldl (fun acc arc =>
      match acc with
      | none => none
      | some (loops3, used3) =>
        let p := arc.1
        if path.contains p then
          let w := (path.drop (listIndex p path)) ++ [pkg, p]
          some (loops3 ++ [w], used3)
        else
          if used3.contains p then some (loops3, used3)
          else dfsVisit fuel st (path ++ [pkg]) p loops3 used3)
      (some (loops, used2))

/-- oldpyrpm.py RpmRelations.detectLoops: DFS from every unvisited node,
in node order. -/
def detectLoops (fuel : Nat) (st : RpmRelations) : Option (List (List Nat)) :=
  let r := st.graph.foldl (fun acc pr =>
    match acc with
    | none => none
    | some (loops, used) =>
      if used.contains pr.1 then some (loops, used)
      else dfsVisit fuel st [] pr.1 loops used) (some ([], []))
  r.map (fun q => q.1)

/-- The adjacent (node, next) arcs of a loop tuple. -/
def loopArcs (loop : List Nat) : List (Nat × Nat) := loop.zip loop.tail

/-- oldpyrpm.py RpmRelations.genCounter: arc => number of loops that
contain it. -/
def genCounter (loops : List (List Nat)) : List (Nat × List (Nat × Nat)) :=
  loops.foldl (fun c loop =>
    (loopArcs loop).foldl (fun c2 arc =>
      let (node, next) := arc
      let inner := (dlookup node c2).getD []
      let inner2 :=
        match dlookup next inner with
        | none => inner ++ [(next, 1)]
        | some n => dinsert next (n + 1) inner
      dinsert node inner2 (dsetdefault node [] c2)) c) []

/-- oldpyrpm.py RpmRelations._dropRelation: drop the arc node -> next,
record it, and add virtual arcs x -> next for the x that still require
node. -/
def dropRelation (st : RpmRelations) (node next : Nat) : RpmRelations :=
  let hard := ((dlookup next (getRel st node).pre).getD 0) &&& HARD
  let g1 := dmodify node (fun r => { r with pre := ddelete next r.pre }) st.graph
  let g2 := dmodify next (fun r => { r with post := ddelete node r.post }) g1
  let dropped2 := dmodify node (fun l => l ++ [next]) (dsetdefault node [] st.dropped)
  let st2 : RpmRelations := ⟨g2, dropped2⟩
  ((getRel st2 node).post).foldl (fun acc ppr =>
    let p := ppr.1
    if p = next ∨ p = node then acc
    else if ((dlookup p acc.dropped).getD []).contains next then acc
    else
      let acc2 :=
        if (dlookup next (getRel acc p).pre).isNone then
          let req := if hard ≠ 0 ∧ ((dlookup node (getRel acc p).pre).getD 0 &&& HARD ≠ 0)
            then HARD else SOFT
          let g := dmodify p (fun r => { r with pre := dinsert next (VIRTUAL ||| req) r.pre }) acc.graph
          { acc with graph := g }
        else acc
      if (dlookup p (getRel acc2 next).post).isNone then
        let g := dmodify next (fun r => { r with post := dinsert p VIRTUAL r.post }) acc2.graph
        { acc2 with graph := g }
      else acc2) st2

/-- oldpyrpm.py RpmRelations._breakupLoop: pick the arc to drop (virtual
arcs by maximal counter first, then non-virtual by maximal counter; hard
arcs only when hard is set), drop it; none when no arc qualifies. -/
def breakupLoopStep (st : RpmRelations) (counter : List (Nat × List (Nat × Nat)))
    (loop : List Nat) (hard : Bool) : Option RpmRelations :=
  let sel := (loopArcs loop).foldl (fun acc arc =>
    let (node, next) := arc
    let flagv := (dlookup next (getRel st node).pre).getD 0
    if ¬hard ∧ flagv &&& HARD ≠ 0 then acc
    else
      let cnt := (dlookup next ((dlookup node counter).getD [])).getD 0
      let (virt, nonvirt) := acc
      if flagv &&& VIRTUAL ≠ 0 then
        if virt.2 < cnt then ((some (node, next), cnt), nonvirt) else acc
      else
        if nonvirt.2 < cnt then (virt, (some (node, next), cnt)) else acc)
    (((none, 0) : Option (Nat × Nat) × Nat), ((none, 0) : Option (Nat × Nat) × Nat))
  match sel.1.1 with
  | some a => some (dropRelation st a.1 a.2)
  | none =>
    match sel.2.1 with
    | some a => some (dropRelation st a.1 a.2)
    | none => none

/-- oldpyrpm.py RpmRelations.breakupLoop: soft pass, then hard pass. -/
def breakupLoop (st : RpmRelations) (loops : List (List Nat))
    (loop : List Nat) : Option RpmRelations :=
  let counter := genCounter loops
  match breakupLoopStep st counter loop false with
  | some st2 => some st2
  | none => breakupLoopStep st counter loop true

/-- The node list of oldpyrpm.py RpmRelations.sortLoops (all nodes of all
loops, insertion order, no duplicates). -/
def sortLoopNodes (loops : List (List Nat)) : List Nat :=
  loops.foldl (fun acc loop =>
    loop.dropLast.foldl (fun a2 pkg =>
      if a2.contains pkg then a2 else a2 ++ [pkg]) acc) []

/-- oldpyrpm.py RpmRelations.sortLoops: order loops by increasing number
of arcs into other loops, ties by decreasing number of outgoing required
arcs. -/
def sortLoops (st : RpmRelations) (loops : List (List Nat)) : List (List Nat) :=
  let loop_nodes := sortLoopNodes loops
  let lr := loops.foldl (fun acc loop =>
    let rels := loop.dropLast.foldl (fun n pkg =>
      (getRel st pkg).pre.foldl (fun n2 pr =>
        if loop_nodes.contains pr.1 ∧ ¬ loop.contains pr.1 then n2 + 1 else n2) n) 0
    let reqs := loop.dropLast.foldl (fun n pkg =>
      (getRel st pkg).post.foldl (fun n2 pr =>
        if ¬ loop.contains pr.1 then n2 + 1 else n2) n) 0
    dinsert loop (rels, reqs) acc) ([] : List (List Nat × Nat × Nat))
  let mysorted := lr.foldl (fun acc entry => insLoop entry acc) []
  mysorted.map (fun e => e.1)
where
  /-- insert before the first element with strictly more external pre arcs
  (or equal pre arcs and strictly fewer external post arcs), else append. -/
  insLoop (x : List Nat × Nat × Nat) : List (List Nat × Nat × Nat) →
      List (List Nat × Nat × Nat)
  | [] => [x]
  | y :: ys =>
    if x.2.1 < y.2.1 ∨ (x.2.1 = y.2.1 ∧ x.2.2 > y.2.2) then x :: y :: ys
    else y :: insLoop x ys

/-- The while loop of oldpyrpm.py RpmRelations._genOrder. -/
def genOrderLoop : Nat → RpmRelations → List Nat → List Nat →
    Option (List Nat × List Nat × RpmRelations)
  | 0, _, _, _ => none
  | fuel + 1, st, order, last =>
    if st.graph.isEmpty then some (order, last, st)
    else
      match separatePostLeafNodes fuel st last with
      | none => none
      | some (st1, last1) =>
        if st1.graph.isEmpty then some (order, last1, st1)
        else
          match getNextLeafNode st1 with
          | (some nxt, st2) => genOrderLoop fuel st2 (order ++ [nxt]) last1
          | (none, st2) =>
            match detectLoops fuel st2 with
            | none => none
            | some loops =>
              if loops.isEmpty then none
              else
                match sortLoops st2 loops with
                | [] => none
                | bestLoop :: _ =>
                  match breakupLoop st2 loops bestLoop with
                  | none => none
                  | some st3 => genOrderLoop fuel st3 order last1

/-- oldpyrpm.py RpmRelations._genOrder: returns order + last and the
final relations state (Python keeps the latter in the mutated self). -/
def genOrder (fuel : Nat) (st : RpmRelations) : Option (List Nat × RpmRelations) :=
  (genOrderLoop fuel st [] []).map (fun q => (q.1 ++ q.2.1, q.2.2))

/-! ### Graph construction (oldpyrpm.py RpmOrderer.genRelations,
lines 3060-3081) -/

/-- RpmRelations.__init__: one empty Relation per package, insertion
order, duplicates collapsed (HashList setitem). -/
def relationsInit (rpms : List Nat) : RpmRelations :=
  ⟨rpms.foldl (fun g p =>
    if (dlookup p g).isSome then dinsert p emptyRelation g
    else g ++ [(p, emptyRelation)]) [], []⟩

/-- The two assignments i.pre[pre] = f2; relations.list[pre].post[pkg] = 1
of genRelations.  Python crashes when either package is not a node
(None.pre / None.post); only crash-free runs build a graph, so the
embedding makes the edge addition conditional on both being present. -/
def addRelation (st : RpmRelations) (pkg pre f2 : Nat) : RpmRelations :=
  if (dlookup pkg st.graph).isSome ∧ (dlookup pre st.graph).isSome then
    let g1 := dmodify pkg (fun r => { r with pre := dinsert pre f2 r.pre }) st.graph
    let g2 := dmodify pre (fun r => { r with post := dinsert pkg 1 r.post }) g1
    { st with graph := g2 }
  else st

/-- oldpyrpm.py RpmOrderer.genRelations: build the dependency graph for
one operation from the resolver's requires index. -/
def genRelations (rpms : List Nat) (operation : String) (resolver : RpmResolver)
    (requires_list : List ((String × Nat × String) × List Nat)) : RpmRelations :=
  requires_list.foldl (fun st entry =>
    let ((n, f, v), reqPkgs) := entry
    if n.take 7 = "rpmlib(" ∨ n.take 7 = "config(" then st
    else
      let resolved := resolverSearchDep resolver n f v
      let f2 := operationFlag f operation
      reqPkgs.foldl (fun st2 pkg =>
        if resolved.contains pkg then st2
        else
          resolved.foldl (fun st3 pre =>
            if f2 &&& HARD ≠ 0 ∨ (dlookup pre (getRel st3 pkg).pre).isNone then
              addRelation st3 pkg pre f2
            else st3) st2) st)
    (relationsInit rpms)

/-- Proof device for C1: the per-edge invariant of _genOrder's main loop
for a pre-edge B -> A (A requires B).  Either the edge was dropped and
recorded, or it is still alive in the graph (with its pre/post pair and
both nodes), or the emitted prefixes already place B before A. -/
def EInv (A B : Nat) (st : RpmRelations) (order last : List Nat) : Prop :=
  ((dlookup A st.dropped).getD []).contains B = true
  ∨ (A ≠ B ∧ (dlookup B (getRel st A).pre).isSome = true
      ∧ (dlookup A (getRel st B).post).isSome = true
      ∧ (dlookup A st.graph).isSome = true ∧ (dlookup B st.graph).isSome = true)
  ∨ (B ∈ order ∧ (dlookup A st.graph).isSome = true)
  ∨ (∃ i j : Nat, i < j ∧ order[i]? = some B ∧ order[j]? = some A)
  ∨ (B ∈ order ∧ A ∈ last)
  ∨ (∃ i j : Nat, i < j ∧ last[i]? = some B ∧ last[j]? = some A)
  ∨ (A ∈ last ∧ (dlookup B st.graph).isSome = true)

/-- Proof device for C1: well-formedness of a built graph -- every
pre-edge connects two distinct present nodes and has its inverse post
entry. -/
def Sym (st : RpmRelations) : Prop :=
  ∀ A B : Nat, (dlookup B (getRel st A).pre).isSome = true →
    A ≠ B ∧ (dlookup A (getRel st B).post).isSome = true
    ∧ (dlookup A st.graph).isSome = true ∧ (dlookup B st.graph).isSome = true

/-! ## Concrete inputs used by counterexamples and witnesses -/

/-- A package owning the single file /a/x, with the given id. -/
def onefilePkg (i : Nat) : RpmPackage := ⟨i, ⟨none, some ["x"], ["/a/"], [0]⟩⟩

/-- A filename index holding /a/x for packages 1, 5, 2 (in that order). -/
def exFnl : FilenamesList :=
  fnlAddPkg (fnlAddPkg (fnlAddPkg ⟨true, []⟩ (onefilePkg 1)) (onefilePkg 5)) (onefilePkg 2)

/-- A resolver with no provides and one file owner for /f. -/
def exResolver : RpmResolver :=
  ⟨[], fnlAddPkg ⟨true, []⟩ ⟨5, ⟨none, some ["f"], ["/"], [0]⟩⟩⟩

/-- A minimal main-header byte stream: magic, indexNo 1, storeSize 1, one
16-byte index entry, a 1-byte store, then a 2-byte payload. -/
def exHdrBytes : List Nat :=
  headerMagic ++ [0, 0, 0, 1] ++ [0, 0, 0, 1] ++
  [0, 0, 3, 232, 0, 0, 0, 6, 0, 0, 0, 0, 0, 0, 0, 1] ++ [0] ++ [9, 9]

/-- The parse of exHdrBytes. -/
def exHdr : HdrData :=
  ⟨1, 1, headerMagic ++ [0, 0, 0, 1] ++ [0, 0, 0, 1],
   [0, 0, 3, 232, 0, 0, 0, 6, 0, 0, 0, 0, 0, 0, 0, 1], [0]⟩

/-- Tag registry fragment for the writeHeader counterexample: one normal
tag a (1000, STRING), one install tag i (2000, STRING), the region tag
r (63, BIN). -/
def exNumOf : String → Nat
  | "a" => 1000
  | "i" => 2000
  | "r" => 63
  | _ => 0

def exTypeOf : Nat → Nat
  | 1000 => RPM_STRING
  | 2000 => RPM_STRING
  | 63 => RPM_BIN
  | _ => 0

/-- Tag set for the writeHeader counterexample. -/
def exTags : List (String × TagValue) :=
  [("a", .str "A"), ("i", .str "I"),
   ("r", .bin [7, 7, 7, 7, 7, 7, 7, 7, 7, 7, 7, 7, 7, 7, 7, 7])]

/-- Requires index for the orderer witness: package 11 requires "a",
provided by package 10. -/
def exReqList : List ((String × Nat × String) × List Nat) := [(("a", 0, ""), [11])]

/-- Resolver for the orderer witness. -/
def exOrdResolver : RpmResolver := ⟨[("a", [(0, "", 10)])], ⟨true, []⟩⟩

/-- The graph the orderer witness builds. -/
def exOrdRels : RpmRelations := genRelations [10, 11] OP_INSTALL exOrdResolver exReqList

/-! ## Helper lemmas -/

theorem pyFind_append_notmem (c : Char) (l1 l2 : List Char) (h : c ∉ l1) :
    pyFind c (l1 ++ c :: l2) = l1.length := by
  induction l1 with
  | nil => simp [pyFind]
  | cons a as ih =>
    have hac : ¬ a = c := by
      intro hh; exact h (hh ▸ List.mem_cons_self a as)
    have has : c ∉ as := fun hm => h (List.mem_cons_of_mem _ hm)
    have hr := ih has
    simp only [List.cons_append, pyFind, hac, if_false, hr]
    have hne : (as.length : Int) ≠ -1 := by omega
    simp [hne, hr]

theorem take_len_append (l1 l2 : List Char) (n : Nat) (h : n = l1.length) :
    (l1 ++ l2).take n = l1 := by
  subst h; simp

theorem drop_len_append (l1 l2 : List Char) (n : Nat) (h : n = l1.length) :
    (l1 ++ l2).drop n = l2 := by
  subst h; simp

theorem mk_eq_string (l : List Char) (s : String) (h : l = s.data) :
    String.mk l = s := by
  subst h; rfl

theorem doRead_some (n : Nat) (bytes t r : List Nat) (h : doRead n bytes = some (t, r)) :
    t = bytes.take n ∧ r = bytes.drop n := by
  unfold doRead at h
  split at h
  · exact absurd h (by simp)
  · injection h with h2
    injection h2 with ha hb
    exact ⟨ha.symm, hb.symm⟩

theorem rec_arg_lt (t1 : List Char) (q : Char → Bool) (ht : t1 ≠ [])
    (hr : (t1.dropWhile (fun c => !xisalnum c)).takeWhile q ≠ []) :
    ((t1.dropWhile (fun c => !xisalnum c)).drop
      ((t1.dropWhile (fun c => !xisalnum c)).takeWhile q).length).length < t1.length := by
  have h1 : (t1.dropWhile (fun c => !xisalnum c)).length ≤ t1.length :=
    (List.dropWhile_sublist _).length_le
  have h3 : 0 < ((t1.dropWhile (fun c => !xisalnum c)).takeWhile q).length :=
    List.length_pos.mpr hr
  have h0 : 0 < t1.length := List.length_pos.mpr ht
  rw [List.length_drop]; omega

theorem scAux_irrel : ∀ f g t1 t2, t1.length < f → t1.length < g →
    stringCompareAux f t1 t2 = stringCompareAux g t1 t2 := by
  intro f
  induction f with
  | zero => intro g t1 t2 h _; omega
  | succ f1 ih =>
    intro g t1 t2 hf hg
    cases g with
    | zero => omega
    | succ g1 =>
      by_cases hbase : t1 = [] ∨ t2 = []
      · simp only [stringCompareAux, if_pos hbase]
      · have ht1 : t1 ≠ [] := fun h => hbase (Or.inl h)
        simp only [stringCompareAux, if_neg hbase]
        by_cases hdig : (t1.dropWhile (fun c => !xisalnum c)) ≠ [] ∧
            xisdigit ((t1.dropWhile (fun c => !xisalnum c)).headD ' ') = true
        · rw [if_pos hdig, if_pos hdig]
          by_cases hr2 : (t2.dropWhile (fun c => !xisalnum c)).takeWhile xisdigit = []
          · rw [if_pos hr2, if_pos hr2]
          · rw [if_neg hr2, if_neg hr2]
            have hr1 : (t1.dropWhile (fun c => !xisalnum c)).takeWhile xisdigit ≠ [] := by
              obtain ⟨hne, hd⟩ := hdig
              rcases hq : t1.dropWhile (fun c => !xisalnum c) with _ | ⟨c, cs⟩
              · exact absurd hq hne
              · have : xisdigit c = true := by
                  have := hd; rw [hq] at this; simpa using this
                simp [List.takeWhile, this]
            split
            · rfl
            · split
              · rfl
              · split
                · rfl
                · apply ih
                  · exact Nat.lt_of_lt_of_le (rec_arg_lt t1 xisdigit ht1 hr1) (by omega)
                  · exact Nat.lt_of_lt_of_le (rec_arg_lt t1 xisdigit ht1 hr1) (by omega)
        · rw [if_neg hdig, if_neg hdig]
          by_cases hr1 : (t1.dropWhile (fun c => !xisalnum c)).takeWhile xisalpha = []
          · rw [if_pos hr1, if_pos hr1]
          · rw [if_neg hr1, if_neg hr1]
            by_cases hr2 : (t2.dropWhile (fun c => !xisalnum c)).takeWhile xisalpha = []
            · rw [if_pos hr2, if_pos hr2]
            · rw [if_neg hr2, if_neg hr2]
              split
              · rfl
              · apply ih
                · exact Nat.lt_of_lt_of_le (rec_arg_lt t1 xisalpha ht1 hr1) (by omega)
                · exact Nat.lt_of_lt_of_le (rec_arg_lt t1 xisalpha ht1 hr1) (by omega)

theorem pyCmp_antisym : ∀ l1 l2 : List Char, pyCmp l1 l2 = - pyCmp l2 l1 := by
  intro l1
  induction l1 with
  | nil => intro l2; cases l2 <;> simp [pyCmp]
  | cons a as ih =>
    intro l2
    cases l2 with
    | nil => simp [pyCmp]
    | cons b bs =>
      by_cases hab : a < b
      · have : ¬ b < a := fun h => absurd hab (asymm h)
        simp [pyCmp, hab, this]
      · by_cases hba : b < a
        · simp [pyCmp, hab, hba]
        · simp [pyCmp, hab, hba, ih bs]

theorem digit_not_alpha (c : Char) (h : xisdigit c = true) : xisalpha c = false := by
  simp only [xisdigit, Bool.and_eq_true, decide_eq_true_eq] at h
  simp only [xisalpha, Bool.or_eq_true, Bool.and_eq_true, decide_eq_true_eq,
    Bool.or_eq_false_iff, Bool.and_eq_false_iff]
  obtain ⟨h1, h2⟩ := h
  constructor
  · left
    simp only [decide_eq_false_iff_not, not_le]
    calc c ≤ '9' := h2
      _ < 'a' := by decide
  · left
    simp only [decide_eq_false_iff_not, not_le]
    calc c ≤ '9' := h2
      _ < 'A' := by decide

theorem alnum_not_digit_alpha (c : Char) (h : xisalnum c = true) (hd : xisdigit c = false) :
    xisalpha c = true := by
  simp only [xisalnum, Bool.or_eq_true] at h
  rcases h with h | h
  · exact h
  · rw [h] at hd; exact absurd hd (by simp)

theorem dropWhile_alnum_id (l : List Char) (h : ∀ c ∈ l, xisalnum c = true) :
    l.dropWhile (fun c => !xisalnum c) = l := by
  cases l with
  | nil => rfl
  | cons a as =>
    have := h a (by simp)
    simp [List.dropWhile, this]

set_option maxHeartbeats 1000000 in
theorem scAux_antisym : ∀ f t1 t2,
    (∀ c ∈ t1, xisalnum c = true) → (∀ c ∈ t2, xisalnum c = true) →
    t1.length < f → t2.length < f →
    stringCompareAux f t1 t2 = - stringCompareAux f t2 t1 := by
  intro f
  induction f with
  | zero => intro t1 t2 _ _ h _; omega
  | succ f1 ih =>
    intro t1 t2 ha1 ha2 hf1 hf2
    by_cases he1 : t1 = []
    · by_cases he2 : t2 = []
      · simp [stringCompareAux, he1, he2]
      · simp [stringCompareAux, he1, he2]
    · by_cases he2 : t2 = []
      · simp [stringCompareAux, he1, he2]
      · have hbL : ¬ (t1 = [] ∨ t2 = []) := by tauto
        have hbR : ¬ (t2 = [] ∨ t1 = []) := by tauto
        simp only [stringCompareAux, if_neg hbL, if_neg hbR]
        rw [dropWhile_alnum_id t1 ha1, dropWhile_alnum_id t2 ha2]
        rcases t1 with _ | ⟨a, as⟩
        · exact absurd rfl he1
        rcases t2 with _ | ⟨b, bs⟩
        · exact absurd rfl he2
        have hda : xisalnum a = true := ha1 a (by simp)
        have hdb : xisalnum b = true := ha2 b (by simp)
        by_cases da : xisdigit a = true
        · by_cases db : xisdigit b = true
          · -- digit / digit
            have hcondL : (a :: as) ≠ [] ∧ xisdigit ((a :: as).headD ' ') = true :=
              ⟨by simp, by simpa using da⟩
            have hcondR : (b :: bs) ≠ [] ∧ xisdigit ((b :: bs).headD ' ') = true :=
              ⟨by simp, by simpa using db⟩
            rw [if_pos hcondL, if_pos hcondR]
            have htw1 : (a :: as).takeWhile xisdigit = a :: as.takeWhile xisdigit := by
              simp [List.takeWhile, da]
            have htw2 : (b :: bs).takeWhile xisdigit = b :: bs.takeWhile xisdigit := by
              simp [List.takeWhile, db]
            rw [htw1, htw2]
            rw [if_neg (by simp : ¬ (b :: bs.takeWhile xisdigit) = []),
                if_neg (by simp : ¬ (a :: as.takeWhile xisdigit) = [])]
            set z1 := (a :: as.takeWhile xisdigit).dropWhile (fun c => c = '0') with hz1
            set z2 := (b :: bs.takeWhile xisdigit).dropWhile (fun c => c = '0') with hz2
            rcases lt_trichotomy z1.length z2.length with hlt | heq | hgt
            · have h1 : ¬ z1.length > z2.length := by omega
              have h2 : z2.length > z1.length := by omega
              rw [if_neg h1, if_pos h2, if_pos h2]
            · have h1 : ¬ z1.length > z2.length := by omega
              have h2 : ¬ z2.length > z1.length := by omega
              rw [if_neg h1, if_neg h2, if_neg h2, if_neg h1]
              by_cases hx : pyCmp z1 z2 = 0
              · have hx2 : pyCmp z2 z1 = 0 := by
                  rw [pyCmp_antisym z2 z1, hx]; rfl
                rw [if_neg (show ¬ pyCmp z1 z2 ≠ 0 by simpa using hx),
                    if_neg (show ¬ pyCmp z2 z1 ≠ 0 by simpa using hx2)]
                have hlen1 : ((a :: as).drop (a :: as.takeWhile xisdigit).length).length < f1 := by
                  rw [List.length_drop]
                  simp only [List.length_cons] at hf1 ⊢
                  omega
                have hlen2 : ((b :: bs).drop (b :: bs.takeWhile xisdigit).length).length < f1 := by
                  rw [List.length_drop]
                  simp only [List.length_cons] at hf2 ⊢
                  omega
                apply ih
                · intro c hc
                  exact ha1 c (List.mem_of_mem_drop hc)
                · intro c hc
                  exact ha2 c (List.mem_of_mem_drop hc)
                · exact hlen1
                · exact hlen2
              · have hx2 : pyCmp z2 z1 = - pyCmp z1 z2 := pyCmp_antisym z2 z1
                have hx2ne : pyCmp z2 z1 ≠ 0 := by
                  rw [hx2]; omega
                rw [if_pos (show pyCmp z1 z2 ≠ 0 from hx),
                    if_pos (show pyCmp z2 z1 ≠ 0 from hx2ne), hx2]
                omega
            · have h1 : z1.length > z2.length := by omega
              have h2 : ¬ z2.length > z1.length := by omega
              rw [if_pos h1, if_neg h2, if_pos h1]
              decide
          · -- digit a / non-digit (alpha) b
            have hb2 : xisalpha b = true := alnum_not_digit_alpha b hdb (by simpa using db)
            have hcondL : (a :: as) ≠ [] ∧ xisdigit ((a :: as).headD ' ') = true :=
              ⟨by simp, by simpa using da⟩
            have hcondR : ¬ ((b :: bs) ≠ [] ∧ xisdigit ((b :: bs).headD ' ') = true) := by
              intro hc
              have h3 := hc.2
              simp only [List.headD_cons] at h3
              rw [h3] at db
              exact db rfl
            rw [if_pos hcondL, if_neg hcondR]
            have htwL : (b :: bs).takeWhile xisdigit = [] := by
              simp [List.takeWhile, db]
            have htwR1 : (b :: bs).takeWhile xisalpha = b :: bs.takeWhile xisalpha := by
              simp [List.takeWhile, hb2]
            have htwR2 : (a :: as).takeWhile xisalpha = [] := by
              simp [List.takeWhile, digit_not_alpha a da]
            rw [htwL, htwR1, htwR2]
            rw [if_pos rfl, if_neg (by simp : ¬ (b :: bs.takeWhile xisalpha) = []), if_pos rfl]
            decide
        ·  -- non-digit a
          by_cases db : xisdigit b = true
          · -- alpha a / digit b
            have ha3 : xisalpha a = true := alnum_not_digit_alpha a hda (by simpa using da)
            have hcondL : ¬ ((a :: as) ≠ [] ∧ xisdigit ((a :: as).headD ' ') = true) := by
              intro hc
              have h3 := hc.2
              simp only [List.headD_cons] at h3
              rw [h3] at da
              exact da rfl
            have hcondR : (b :: bs) ≠ [] ∧ xisdigit ((b :: bs).headD ' ') = true :=
              ⟨by simp, by simpa using db⟩
            rw [if_neg hcondL, if_pos hcondR]
            have htwL1 : (a :: as).takeWhile xisalpha = a :: as.takeWhile xisalpha := by
              simp [List.takeWhile, ha3]
            have htwL2 : (b :: bs).takeWhile xisalpha = [] := by
              simp [List.takeWhile, digit_not_alpha b db]
            have htwR : (a :: as).takeWhile xisdigit = [] := by
              simp [List.takeWhile, da]
            rw [htwL1, htwL2, htwR]
            rw [if_neg (by simp : ¬ (a :: as.takeWhile xisalpha) = []), if_pos rfl, if_pos rfl]
          · -- alpha / alpha
            have ha3 : xisalpha a = true := alnum_not_digit_alpha a hda (by simpa using da)
            have hb3 : xisalpha b = true := alnum_not_digit_alpha b hdb (by simpa using db)
            have hcondL : ¬ ((a :: as) ≠ [] ∧ xisdigit ((a :: as).headD ' ') = true) := by
              intro hc
              have h3 := hc.2
              simp only [List.headD_cons] at h3
              rw [h3] at da
              exact da rfl
            have hcondR : ¬ ((b :: bs) ≠ [] ∧ xisdigit ((b :: bs).headD ' ') = true) := by
              intro hc
              have h3 := hc.2
              simp only [List.headD_cons] at h3
              rw [h3] at db
              exact db rfl
            rw [if_neg hcondL, if_neg hcondR]
            have htwa : (a :: as).takeWhile xisalpha = a :: as.takeWhile xisalpha := by
              simp [List.takeWhile, ha3]
            have htwb : (b :: bs).takeWhile xisalpha = b :: bs.takeWhile xisalpha := by
              simp [List.takeWhile, hb3]
            rw [htwa, htwb]
            rw [if_neg (by simp : ¬ (a :: as.takeWhile xisalpha) = []),
                if_neg (by simp : ¬ (b :: bs.takeWhile xisalpha) = []),
                if_neg (by simp : ¬ (b :: bs.takeWhile xisalpha) = []),
                if_neg (by simp : ¬ (a :: as.takeWhile xisalpha) = [])]
            by_cases hx : pyCmp (a :: as.takeWhile xisalpha) (b :: bs.takeWhile xisalpha) = 0
            · have hx2 : pyCmp (b :: bs.takeWhile xisalpha) (a :: as.takeWhile xisalpha) = 0 := by
                rw [pyCmp_antisym, hx]; rfl
              rw [if_neg (by simpa using hx), if_neg (by simpa using hx2)]
              have hlen1 : ((a :: as).drop (a :: as.takeWhile xisalpha).length).length < f1 := by
                rw [List.length_drop]
                simp only [List.length_cons] at hf1 ⊢
                omega
              have hlen2 : ((b :: bs).drop (b :: bs.takeWhile xisalpha).length).length < f1 := by
                rw [List.length_drop]
                simp only [List.length_cons] at hf2 ⊢
                omega
              apply ih
              · intro c hc
                exact ha1 c (List.mem_of_mem_drop hc)
              · intro c hc
                exact ha2 c (List.mem_of_mem_drop hc)
              · exact hlen1
              · exact hlen2
            · have hx2 := pyCmp_antisym (b :: bs.takeWhile xisalpha) (a :: as.takeWhile xisalpha)
              have hx2ne : pyCmp (b :: bs.takeWhile xisalpha) (a :: as.takeWhile xisalpha) ≠ 0 := by
                rw [hx2]; omega
              rw [if_pos (show _ ≠ (0:Int) from hx), if_pos (show _ ≠ (0:Int) from hx2ne), hx2]
              omega

theorem sc_self (s : String) : stringCompare s s = 0 := by
  simp [stringCompare]

theorem stringCompare_antisym (s1 s2 : String)
    (h1 : ∀ c ∈ s1.data, xisalnum c = true) (h2 : ∀ c ∈ s2.data, xisalnum c = true) :
    stringCompare s1 s2 = - stringCompare s2 s1 := by
  by_cases he : s1 = s2
  · subst he
    simp [stringCompare]
  · have hne2 : ¬ s2 = s1 := fun h => he h.symm
    unfold stringCompare
    rw [if_neg he, if_neg hne2]
    have hm1 : s1.data.length ≤ max s1.data.length s2.data.length := Nat.le_max_left _ _
    have hm2 : s2.data.length ≤ max s1.data.length s2.data.length := Nat.le_max_right _ _
    rw [scAux_irrel (s1.data.length + 1) (max s1.data.length s2.data.length + 1)
      s1.data s2.data (by omega) (by omega)]
    rw [scAux_irrel (s2.data.length + 1) (max s1.data.length s2.data.length + 1)
      s2.data s1.data (by omega) (by omega)]
    exact scAux_antisym _ _ _ h1 h2 (by omega) (by omega)

theorem scChain_antisym (a b c d e f : Int)
    (hab : a = - b) (hcd : c = - d) (hef : e = - f) :
    (if a = 0 then (if c = 0 then e else c) else a)
      = - (if b = 0 then (if d = 0 then f else d) else b) := by
  by_cases ha : a = 0
  · have hb : b = 0 := by omega
    rw [if_pos ha, if_pos hb]
    by_cases hc : c = 0
    · have hd : d = 0 := by omega
      rw [if_pos hc, if_pos hd]
      exact hef
    · have hd : d ≠ 0 := by omega
      rw [if_neg hc, if_neg hd]
      exact hcd
  · have hb : b ≠ 0 := by omega
    rw [if_neg ha, if_neg hb]
    exact hab

theorem labelCompare_antisym (V1 V2 : EVR)
    (h1 : ∀ c ∈ V1.1.data, xisalnum c = true) (h2 : ∀ c ∈ V1.2.1.data, xisalnum c = true)
    (h3 : ∀ c ∈ V1.2.2.data, xisalnum c = true)
    (h4 : ∀ c ∈ V2.1.data, xisalnum c = true) (h5 : ∀ c ∈ V2.2.1.data, xisalnum c = true)
    (h6 : ∀ c ∈ V2.2.2.data, xisalnum c = true) :
    labelCompare V1 V2 = - labelCompare V2 V1 := by
  obtain ⟨e1, v1, r1⟩ := V1
  obtain ⟨e2, v2, r2⟩ := V2
  simp only at h1 h2 h3 h4 h5 h6
  have hee := stringCompare_antisym e1 e2 h1 h4
  have hvv := stringCompare_antisym v1 v2 h2 h5
  have hrr := stringCompare_antisym r1 r2 h3 h6
  by_cases hr2 : r2 = ""
  · by_cases hr1 : r1 = ""
    · subst hr1; subst hr2
      simp only [labelCompare, if_pos rfl]
      simp only [if_true]
      exact scChain_antisym _ _ _ _ _ _ hee hvv (by rw [sc_self]; rfl)
    · subst hr2
      simp only [labelCompare, if_pos rfl, if_neg hr1]
      simp only [if_true]
      exact scChain_antisym _ _ _ _ _ _ hee hvv (by rw [sc_self]; rfl)
  · by_cases hr1 : r1 = ""
    · subst hr1
      simp only [labelCompare, if_neg hr2, if_pos rfl]
      simp only [if_true]
      exact scChain_antisym _ _ _ _ _ _ hee hvv (by rw [sc_self]; rfl)
    · simp only [labelCompare, if_neg hr2, if_neg hr1]
      exact scChain_antisym _ _ _ _ _ _ hee hvv hrr

/-! ## Claim theorems -/

/-- C3 counterexample: labelCompare is not antisymmetric on all string
triples; with epochs "a." and "a-" both directions return -1 (trailing
separators exhaust one side and the loop answers -1 either way). -/
theorem c3_labelCompare_counterexample :
    labelCompare ("a.", "0", "0") ("a-", "0", "0") = -1 ∧
    labelCompare ("a-", "0", "0") ("a.", "0", "0") = -1 ∧
    labelCompare ("a.", "0", "0") ("a-", "0", "0") ≠
      - labelCompare ("a-", "0", "0") ("a.", "0", "0") := by
  refine ⟨by decide, by decide, by decide⟩

/-- C3 (amended): labelCompare(V, V) = 0 for every triple V, and
labelCompare(V1, V2) = -labelCompare(V2, V1) whenever every component
string consists only of ASCII alphanumeric characters (the unrestricted
claim fails when separator characters leave one side exhausted). -/
theorem c3_labelCompare_spec :
    (∀ V : EVR, labelCompare V V = 0) ∧
    (∀ V1 V2 : EVR,
      (∀ c ∈ V1.1.data, xisalnum c = true) → (∀ c ∈ V1.2.1.data, xisalnum c = true) →
      (∀ c ∈ V1.2.2.data, xisalnum c = true) →
      (∀ c ∈ V2.1.data, xisalnum c = true) → (∀ c ∈ V2.2.1.data, xisalnum c = true) →
      (∀ c ∈ V2.2.2.data, xisalnum c = true) →
      labelCompare V1 V2 = - labelCompare V2 V1) := by
  constructor
  · intro V
    obtain ⟨e, v, r⟩ := V
    by_cases hr : r = ""
    · simp [labelCompare, hr, stringCompare]
    · simp [labelCompare, hr, stringCompare]
  · intro V1 V2 h1 h2 h3 h4 h5 h6
    exact labelCompare_antisym V1 V2 h1 h2 h3 h4 h5 h6

theorem searchDepFold_mem (flag : Nat) (version : String) (evr : EVR) :
    ∀ (ds : List (Nat × String × Nat)) (r0 : List Nat) (p : Nat),
    (p ∈ ds.foldl (fun ret fvr =>
        let (f, v, rpm) := fvr
        if ret.contains rpm then ret
        else if version = "" || rangeCompare flag evr f (evrSplit v) then ret ++ [rpm]
        else if v = "" then ret ++ [rpm]
        else ret) r0) ↔
      (p ∈ r0 ∨ ∃ f v, (f, v, p) ∈ ds ∧
        (version = "" ∨ rangeCompare flag evr f (evrSplit v) = true ∨ v = "")) := by
  intro ds
  induction ds with
  | nil => intro r0 p; simp
  | cons hd rest ih =>
    intro r0 p
    obtain ⟨f0, v0, q⟩ := hd
    rw [List.foldl_cons]
    dsimp only
    by_cases hq : q ∈ r0
    · rw [if_pos (by simpa [List.contains] using hq)]
      rw [ih r0 p]
      simp only [List.mem_cons]
      constructor
      · rintro (hp | ⟨f, v, hm, ha⟩)
        · exact Or.inl hp
        · exact Or.inr ⟨f, v, Or.inr hm, ha⟩
      · rintro (hp | ⟨f, v, (heq | hm2), ha⟩)
        · exact Or.inl hp
        · simp only [Prod.mk.injEq] at heq
          obtain ⟨-, -, h3⟩ := heq
          subst h3
          exact Or.inl hq
        · exact Or.inr ⟨f, v, hm2, ha⟩
    · rw [if_neg (by simpa [List.contains] using hq)]
      by_cases hb1 : (version = "" || rangeCompare flag evr f0 (evrSplit v0)) = true
      · rw [if_pos hb1]
        rw [ih _ p]
        have hb1P : version = "" ∨ rangeCompare flag evr f0 (evrSplit v0) = true := by
          simpa using hb1
        simp only [List.mem_append, List.mem_singleton, List.mem_cons, List.not_mem_nil, or_false]
        constructor
        · rintro ((hp | hpq) | ⟨f, v, hm, ha⟩)
          · exact Or.inl hp
          · subst hpq
            refine Or.inr ⟨f0, v0, Or.inl rfl, ?_⟩
            rcases hb1P with h | h
            · exact Or.inl h
            · exact Or.inr (Or.inl h)
          · exact Or.inr ⟨f, v, Or.inr hm, ha⟩
        · rintro (hp | ⟨f, v, (heq | hm2), ha⟩)
          · exact Or.inl (Or.inl hp)
          · simp only [Prod.mk.injEq] at heq
            obtain ⟨-, -, h3⟩ := heq
            subst h3
            exact Or.inl (Or.inr rfl)
          · exact Or.inr ⟨f, v, hm2, ha⟩
      · rw [if_neg hb1]
        have hb1P : ¬ (version = "" ∨ rangeCompare flag evr f0 (evrSplit v0) = true) := by
          simpa using hb1
        by_cases hb2 : v0 = ""
        · rw [if_pos hb2]
          rw [ih _ p]
          simp only [List.mem_append, List.mem_singleton, List.mem_cons, List.not_mem_nil, or_false]
          constructor
          · rintro ((hp | hpq) | ⟨f, v, hm, ha⟩)
            · exact Or.inl hp
            · subst hpq
              exact Or.inr ⟨f0, v0, Or.inl rfl, Or.inr (Or.inr hb2)⟩
            · exact Or.inr ⟨f, v, Or.inr hm, ha⟩
          · rintro (hp | ⟨f, v, (heq | hm2), ha⟩)
            · exact Or.inl (Or.inl hp)
            · simp only [Prod.mk.injEq] at heq
              obtain ⟨-, -, h3⟩ := heq
              subst h3
              exact Or.inl (Or.inr rfl)
            · exact Or.inr ⟨f, v, hm2, ha⟩
        · rw [if_neg hb2]
          rw [ih r0 p]
          simp only [List.mem_cons]
          constructor
          · rintro (hp | ⟨f, v, hm, ha⟩)
            · exact Or.inl hp
            · exact Or.inr ⟨f, v, Or.inr hm, ha⟩
          · rintro (hp | ⟨f, v, (heq | hm2), ha⟩)
            · exact Or.inl hp
            · simp only [Prod.mk.injEq] at heq
              obtain ⟨hf, hv, h3⟩ := heq
              subst hf; subst hv; subst h3
              rcases ha with h | h | h
              · exact absurd (Or.inl h) hb1P
              · exact absurd (Or.inr h) hb1P
              · exact absurd h hb2
            · exact Or.inr ⟨f, v, hm2, ha⟩


/-- C5 counterexample: with an empty provides index and package 5 owning
/f in the filename index, the query (name = "/f", flag = 0,
version = "1") returns nothing although the name starts with '/': the
filename index is only consulted for unversioned queries. -/
theorem c5_searchDependency_counterexample :
    resolverSearchDep exResolver "/f" 0 "1" = [] ∧
    fnlSearch exResolver.filenames_list "/f" = [5] := by
  refine ⟨by decide, by decide⟩

/-- C5 (amended): a package is returned by RpmResolver.searchDependency
exactly when some provides candidate (cflag, cver, owner) under the name
satisfies version = "" or range intersection or cver = "" (an
unversioned candidate is always accepted), or when the name starts with
'/' and the query is unversioned and the filename index lists the
package for this name. -/
theorem c5_searchDependency_spec :
    ∀ (r : RpmResolver) (name : String) (flag : Nat) (version : String) (p : Nat),
      p ∈ resolverSearchDep r name flag version ↔
        (∃ f v, (f, v, p) ∈ (dlookup name r.provides_list).getD [] ∧
          (version = "" ∨ rangeCompare flag (evrSplit version) f (evrSplit v) = true ∨ v = "")) ∨
        (name.data.head? = some '/' ∧ version = "" ∧ p ∈ fnlSearch r.filenames_list name) := by
  intro r name flag version p
  unfold resolverSearchDep
  by_cases hg : name.data.head? = some '/' ∧ version = ""
  · rw [if_pos hg]
    rw [List.mem_append]
    unfold searchDependency
    rw [searchDepFold_mem flag version (evrSplit version) _ [] p]
    simp only [List.not_mem_nil, false_or]
    constructor
    · rintro (h | h)
      · exact Or.inl h
      · exact Or.inr ⟨hg.1, hg.2, h⟩
    · rintro (h | ⟨_, _, h⟩)
      · exact Or.inl h
      · exact Or.inr h
  · rw [if_neg hg]
    unfold searchDependency
    rw [searchDepFold_mem flag version (evrSplit version) _ [] p]
    simp only [List.not_mem_nil, false_or]
    constructor
    · exact fun h => Or.inl h
    · rintro (h | ⟨ha, hb, _⟩)
      · exact h
      · exact absurd ⟨ha, hb⟩ hg

/-- Witness for C3 at V1 = ("1","2","3"), V2 = ("1","2","4"). -/
theorem c3_labelCompare_spec_witness :
    labelCompare ("1", "2", "3") ("1", "2", "4")
      = - labelCompare ("1", "2", "4") ("1", "2", "3") :=
  c3_labelCompare_spec.2 ("1", "2", "3") ("1", "2", "4")
    (by decide) (by decide) (by decide) (by decide) (by decide) (by decide)


/-- C2: rangeCompare flag1 evr1 flag2 evr2 is true iff, with
sense = labelCompare evr1 evr2, either sense < 0 and (flag1 has GREATER or
flag2 has LESS), or sense > 0 and (flag1 has LESS or flag2 has GREATER),
or sense = 0 and the flags share a direction; and the two concrete
intersection examples of the spec hold. -/
theorem c2_rangeCompare_spec :
    (∀ (flag1 flag2 : Nat) (evr1 evr2 : EVR),
      flag1 &&& (RPMSENSE_LESS ||| RPMSENSE_EQUAL ||| RPMSENSE_GREATER) ≠ 0 →
      flag2 &&& (RPMSENSE_LESS ||| RPMSENSE_EQUAL ||| RPMSENSE_GREATER) ≠ 0 →
      (rangeCompare flag1 evr1 flag2 evr2 = true ↔
        (labelCompare evr1 evr2 < 0 ∧
          (flag1 &&& RPMSENSE_GREATER ≠ 0 ∨ flag2 &&& RPMSENSE_LESS ≠ 0)) ∨
        (0 < labelCompare evr1 evr2 ∧
          (flag1 &&& RPMSENSE_LESS ≠ 0 ∨ flag2 &&& RPMSENSE_GREATER ≠ 0)) ∨
        (labelCompare evr1 evr2 = 0 ∧
          ((flag1 &&& RPMSENSE_EQUAL ≠ 0 ∧ flag2 &&& RPMSENSE_EQUAL ≠ 0) ∨
           (flag1 &&& RPMSENSE_LESS ≠ 0 ∧ flag2 &&& RPMSENSE_LESS ≠ 0) ∨
           (flag1 &&& RPMSENSE_GREATER ≠ 0 ∧ flag2 &&& RPMSENSE_GREATER ≠ 0))))) ∧
    rangeCompare (RPMSENSE_LESS ||| RPMSENSE_EQUAL) ("0", "2", "1")
      RPMSENSE_GREATER ("0", "1", "0") = true ∧
    rangeCompare RPMSENSE_LESS ("0", "2", "1")
      (RPMSENSE_GREATER ||| RPMSENSE_EQUAL) ("0", "2", "1") = false := by
  refine ⟨?_, by decide, by decide⟩
  intro f1 f2 e1 e2 h1 h2
  unfold rangeCompare
  rcases lt_trichotomy (labelCompare e1 e2) 0 with h | h | h
  · have hn : ¬ (0:Int) < labelCompare e1 e2 := by omega
    have hne : labelCompare e1 e2 ≠ 0 := by omega
    simp [h, hn, hne]
  · have hn : ¬ labelCompare e1 e2 < 0 := by omega
    have hn2 : ¬ (0:Int) < labelCompare e1 e2 := by omega
    simp [h, hn, hn2]
    tauto
  · have hn : ¬ labelCompare e1 e2 < 0 := by omega
    have hne : labelCompare e1 e2 ≠ 0 := by omega
    simp [h, hn, hne]

/-- Witness for C2 at flag1 = LESS|EQUAL (10), flag2 = GREATER (4). -/
theorem c2_rangeCompare_spec_witness :
    rangeCompare 10 ("0", "2", "1") 4 ("0", "1", "0") = true :=
  (c2_rangeCompare_spec.1 10 4 ("0", "2", "1") ("0", "1", "0")
    (by decide) (by decide)).mpr (by decide)

/-- C4 counterexample: on a concrete parsed main header the bytes fed to
the package md5 are not just index bytes ++ store bytes ++ payload; the
16-byte magic/count preamble is hashed too. -/
theorem c4_md5_counterexample :
    readIndex 1 exHdrBytes = some (exHdr, [9, 9]) ∧
    md5Input exHdr [9, 9] ≠ exHdr.fmt ++ exHdr.fmt2 ++ [9, 9] := by
  constructor
  · decide
  · decide

/-- C4 (amended): the package md5 is computed over exactly the main
header's 16-byte magic/count preamble followed by its index bytes, its
store bytes, and the entire rest of the file, i.e. over every byte from
the start of the main header through end-of-file and nothing else. -/
theorem c4_md5_input :
    ∀ (bytes : List Nat) (hdr : HdrData) (rest : List Nat),
      readIndex 1 bytes = some (hdr, rest) →
      md5Input hdr rest = bytes ∧ hdr.intro16 = bytes.take 16 := by
  intro bytes hdr rest h
  unfold readIndex at h
  rcases hd0 : doRead 16 bytes with _ | ⟨data, rest1⟩
  · rw [hd0] at h; exact absurd h (by simp)
  · rw [hd0] at h
    simp only [] at h
    split at h
    · exact absurd h (by simp)
    · rcases hd1 : doRead (16 * beToNat ((data.drop 8).take 4)) rest1 with _ | ⟨fmt, rest2⟩
      · rw [hd1] at h; exact absurd h (by simp)
      · rw [hd1] at h
        dsimp only at h
        rcases hd2 : doRead (beToNat (data.drop 12)) rest2 with _ | ⟨fmt2, rest3⟩
        · rw [hd2] at h; exact absurd h (by simp)
        · rw [hd2] at h
          dsimp only at h
          rw [if_pos trivial] at h
          injection h with h2
          injection h2 with ha hb
          obtain ⟨hda, hra⟩ := doRead_some _ _ _ _ hd0
          obtain ⟨hfa, hrb⟩ := doRead_some _ _ _ _ hd1
          obtain ⟨hf2, hrc⟩ := doRead_some _ _ _ _ hd2
          subst ha hb
          constructor
          · show data ++ fmt ++ fmt2 ++ rest3 = bytes
            rw [hf2, hrc, hfa, hrb, hda, hra]
            simp [List.take_append_drop]
          · simpa using hda

/-- Witness for C4 at the concrete example header. -/
theorem c4_md5_input_witness :
    md5Input exHdr [9, 9] = exHdrBytes ∧ exHdr.intro16 = exHdrBytes.take 16 :=
  c4_md5_input exHdrBytes exHdr [9, 9] (by decide)

/-- C6: operationFlag returns HARD exactly for a legacy prereq, or an
erase-only bit during OP_ERASE, or an install-only bit during any other
operation, and SOFT otherwise; with the spec's concrete flag examples. -/
theorem c6_operationFlag_spec :
    (∀ (flag : Nat) (op : String),
      (operationFlag flag op = HARD ↔
        flag &&& _ALL_REQUIRES_MASK = RPMSENSE_PREREQ ∨
        (op = OP_ERASE ∧ flag &&& _ERASE_ONLY_MASK ≠ 0) ∨
        (op ≠ OP_ERASE ∧ flag &&& _INSTALL_ONLY_MASK ≠ 0)) ∧
      (operationFlag flag op = HARD ∨ operationFlag flag op = SOFT)) ∧
    _ERASE_ONLY_MASK = (1 <<< 11) ||| (1 <<< 12) ∧
    _INSTALL_ONLY_MASK = (1 <<< 9) ||| (1 <<< 10) ||| (1 <<< 24) ||| (1 <<< 26) ∧
    operationFlag (RPMSENSE_SCRIPT_PRE ||| RPMSENSE_PREREQ) OP_INSTALL = HARD ∧
    operationFlag (RPMSENSE_SCRIPT_PRE ||| RPMSENSE_PREREQ) OP_ERASE = SOFT ∧
    operationFlag RPMSENSE_PREREQ OP_INSTALL = HARD ∧
    operationFlag RPMSENSE_PREREQ OP_ERASE = HARD := by
  refine ⟨?_, by decide, by decide, by decide, by decide, by decide, by decide⟩
  intro flag op
  unfold operationFlag isLegacyPreReq isErasePreReq isInstallPreReq
  by_cases he : op = OP_ERASE <;>
    by_cases hl : flag &&& _ALL_REQUIRES_MASK = RPMSENSE_PREREQ <;>
    by_cases hi : flag &&& _INSTALL_ONLY_MASK = 0 <;>
    by_cases her : flag &&& _ERASE_ONLY_MASK = 0 <;>
    simp [he, hl, hi, her, HARD, SOFT]

/-- C8: the derived file list is oldfilenames when present, and otherwise
the elementwise concatenation dirnames[dirindexes[i]] ++ basenames[i]
over the basenames; with the spec's concrete example. -/
theorem c8_getFilenames_spec :
    (∀ (pkg : FileTags) (ofn : List String),
      pkg.oldfilenames = some ofn → getFilenames pkg = ofn) ∧
    (∀ (pkg : FileTags) (bn : List String),
      pkg.oldfilenames = none → pkg.basenames = some bn →
      (getFilenames pkg).length = bn.length ∧
      ∀ i, i < bn.length → (getFilenames pkg).getD i "" =
        pkg.dirnames.getD (pkg.dirindexes.getD i 0) "" ++ bn.getD i "") ∧
    getFilenames ⟨none, some ["ls", "cat", "motd"], ["/usr/bin/", "/etc/"], [0, 0, 1]⟩ =
      ["/usr/bin/ls", "/usr/bin/cat", "/etc/motd"] := by
  refine ⟨?_, ?_, by decide⟩
  · intro pkg ofn h
    unfold getFilenames
    rw [h]
  · intro pkg bn h1 h2
    unfold getFilenames
    rw [h1, h2]
    constructor
    · simp
    · intro i hi
      simp [List.getD, hi]

/-- Witness for C8 at the spec's concrete tags. -/
theorem c8_getFilenames_spec_witness :
    getFilenames ⟨some ["/bin/sh"], none, [], []⟩ = ["/bin/sh"] ∧
    (getFilenames ⟨none, some ["ls", "cat", "motd"], ["/usr/bin/", "/etc/"], [0, 0, 1]⟩).length = 3 :=
  ⟨c8_getFilenames_spec.1 ⟨some ["/bin/sh"], none, [], []⟩ ["/bin/sh"] rfl,
   (c8_getFilenames_spec.2.1 ⟨none, some ["ls", "cat", "motd"], ["/usr/bin/", "/etc/"], [0, 0, 1]⟩
     ["ls", "cat", "motd"] rfl rfl).1⟩

/-- C9 counterexample: composing an EVR string from V = "1-2" (which
contains a dash) and splitting it back does not return the triple; the
split cuts at the first dash after the colon. -/
theorem c9_evrSplit_counterexample :
    ("0" : String) ≠ "" ∧ ("3" : String) ≠ "" ∧
    evrSplit ("0" ++ ":" ++ "1-2" ++ "-" ++ "3") = ("0", "1", "2-3") ∧
    evrSplit ("0" ++ ":" ++ "1-2" ++ "-" ++ "3") ≠ ("0", "1-2", "3") := by
  refine ⟨by decide, by decide, by decide, by decide⟩

/-- C9 (amended): evrSplit (E ++ ":" ++ V ++ "-" ++ R) = (E, V, R) for
E ≠ "" and R ≠ "" whenever additionally E contains no colon and V
contains no dash. -/
theorem c9_evrSplit_roundtrip :
    ∀ E V R : String, E ≠ "" → R ≠ "" →
    (':' ∉ E.data) → ('-' ∉ V.data) →
    evrSplit (E ++ ":" ++ V ++ "-" ++ R) = (E, V, R) := by
  intro E V R _ _ hE hV
  have hdata : (E ++ ":" ++ V ++ "-" ++ R).data
      = E.data ++ ':' :: (V.data ++ '-' :: R.data) := by
    simp [String.data_append]
  have hfind1 : pyFind ':' (E.data ++ ':' :: (V.data ++ '-' :: R.data))
      = E.data.length := pyFind_append_notmem ':' E.data _ hE
  have hfind2 : pyFind '-' (V.data ++ '-' :: R.data) = V.data.length :=
    pyFind_append_notmem '-' V.data _ hV
  have hne1 : ((E.data.length : Int)) ≠ -1 := by omega
  have hne2 : ((V.data.length : Int)) ≠ -1 := by omega
  have htn2 : ((E.data.length : Int) + 1).toNat = E.data.length + 1 := by omega
  have htn3 : ((V.data.length : Int)).toNat = V.data.length := by omega
  have hdrop1 : List.drop (E.data.length + 1) (E.data ++ ':' :: (V.data ++ '-' :: R.data))
      = V.data ++ '-' :: R.data := by
    have h2 : E.data ++ ':' :: (V.data ++ '-' :: R.data)
        = (E.data ++ [':']) ++ (V.data ++ '-' :: R.data) := by simp
    rw [h2, drop_len_append _ _ _ (by simp)]
  unfold evrSplit
  simp only [hdata, hfind1, hne1, if_true, htn2, hdrop1, hfind2, hne2, ne_eq,
    not_false_iff, htn3, Int.toNat_ofNat, Prod.mk.injEq]
  refine ⟨?_, ?_, ?_⟩
  · apply mk_eq_string
    exact take_len_append _ _ _ rfl
  · apply mk_eq_string
    rw [show E.data.length + 1 + V.data.length - (E.data.length + 1) = V.data.length by omega]
    exact take_len_append _ _ _ rfl
  · apply mk_eq_string
    have h2 : E.data ++ ':' :: (V.data ++ '-' :: R.data)
        = (E.data ++ [':'] ++ V.data ++ ['-']) ++ R.data := by simp
    rw [h2, drop_len_append _ _ _ (by simp; omega)]

/-- Witness for C9 at E = "1", V = "2", R = "3". -/
theorem c9_evrSplit_roundtrip_witness : evrSplit ("1" ++ ":" ++ "2" ++ "-" ++ "3") = ("1", "2", "3") :=
  c9_evrSplit_roundtrip "1" "2" "3" (by decide) (by decide) (by decide) (by decide)


theorem dlookup_dinsert {κ α : Type} [DecidableEq κ] (k k2 : κ) (v : α) (d : List (κ × α)) :
    dlookup k2 (dinsert k v d) = if k = k2 then some v else dlookup k2 d := by
  induction d with
  | nil => by_cases h : k = k2 <;> simp [dinsert, dlookup, h]
  | cons hd rest ih =>
    obtain ⟨k3, v3⟩ := hd
    by_cases h3 : k3 = k <;> by_cases h2 : k3 = k2 <;>
      simp_all [dinsert, dlookup] <;>
      rw [if_neg (fun hh => h3 hh.symm)]

theorem dlookup_dmodify {κ α : Type} [DecidableEq κ] (k k2 : κ) (f : α → α) (d : List (κ × α)) :
    dlookup k2 (dmodify k f d) = if k = k2 then (dlookup k d).map f else dlookup k2 d := by
  induction d with
  | nil => by_cases h : k = k2 <;> simp [dmodify, dlookup, h]
  | cons hd rest ih =>
    obtain ⟨k3, v3⟩ := hd
    by_cases h3 : k3 = k <;> by_cases h2 : k3 = k2 <;>
      simp_all [dmodify, dlookup] <;>
      rw [if_neg (fun hh => h3 hh.symm)]

theorem dlookup_append_none {κ α : Type} [DecidableEq κ] (k : κ) (d1 d2 : List (κ × α))
    (h : dlookup k d1 = none) : dlookup k (d1 ++ d2) = dlookup k d2 := by
  induction d1 with
  | nil => simp
  | cons hd rest ih =>
    obtain ⟨k3, v3⟩ := hd
    by_cases h3 : k3 = k <;> simp_all [dlookup]

theorem dlookup_some_append {κ α : Type} [DecidableEq κ] (k : κ) (v : α) (d1 d2 : List (κ × α))
    (h : dlookup k d1 = some v) : dlookup k (d1 ++ d2) = some v := by
  induction d1 with
  | nil => simp [dlookup] at h
  | cons hd rest ih =>
    obtain ⟨k3, v3⟩ := hd
    by_cases h3 : k3 = k <;> simp_all [dlookup]

theorem dlookup_dsetdefault {κ α : Type} [DecidableEq κ] (k k2 : κ) (dflt : α)
    (d : List (κ × α)) :
    dlookup k2 (dsetdefault k dflt d) =
      if k = k2 then some ((dlookup k d).getD dflt) else dlookup k2 d := by
  unfold dsetdefault
  rcases hk : dlookup k d with _ | v
  · simp only [hk, Option.isSome_none, Bool.false_eq_true, if_false]
    by_cases h : k = k2
    · subst h
      rw [dlookup_append_none k d [(k, dflt)] hk]
      simp [dlookup]
    · rw [if_neg h]
      rcases hk2 : dlookup k2 d with _ | v2
      · rw [dlookup_append_none k2 d [(k, dflt)] hk2]
        have : ¬ k = k2 := h
        simp [dlookup, this]
      · exact dlookup_some_append k2 v2 d [(k, dflt)] hk2
  · simp only [hk, Option.isSome_some, if_true]
    by_cases h : k = k2
    · subst h
      simp [hk]
    · simp [h]

theorem bucketGet_append (path : List (String × List (String × List FnEntry)))
    (d b dq bq : String) (e : FnEntry) :
    bucketGet (bucketAppend path d b e) dq bq =
      if d = dq ∧ b = bq then bucketGet path dq bq ++ [e] else bucketGet path dq bq := by
  unfold bucketAppend bucketGet
  rw [dlookup_dinsert]
  by_cases hd : d = dq
  · subst hd
    rw [if_pos rfl, Option.getD_some, dlookup_dinsert]
    by_cases hb : b = bq
    · subst hb
      rw [if_pos rfl, Option.getD_some, if_pos ⟨rfl, rfl⟩]
    · rw [if_neg hb, if_neg (fun hh => hb hh.2)]
  · rw [if_neg hd, if_neg (fun hh => hd hh.1)]

theorem bucketGet_remove (path : List (String × List (String × List FnEntry)))
    (d b dq bq : String) (e : FnEntry) :
    bucketGet (bucketRemove path d b e) dq bq =
      if d = dq ∧ b = bq then eraseFirst e (bucketGet path dq bq)
      else bucketGet path dq bq := by
  unfold bucketRemove bucketGet
  rw [dlookup_dmodify]
  by_cases hd : d = dq
  · rw [if_pos hd]
    by_cases hb : b = bq
    · rw [if_pos ⟨hd, hb⟩]
      subst hd; subst hb
      rcases hp : dlookup d path with _ | bucket
      · simp [dlookup, eraseFirst]
      · simp only [Option.map_some', Option.getD_some]
        rw [dlookup_dmodify, if_pos rfl]
        rcases hq : dlookup b bucket with _ | l
        · simp [eraseFirst]
        · simp
    · rw [if_neg (fun hh => hb hh.2)]
      subst hd
      rcases hp : dlookup d path with _ | bucket
      · simp
      · simp only [Option.map_some', Option.getD_some]
        rw [dlookup_dmodify, if_neg hb]
  · rw [if_neg hd, if_neg (fun hh => hd hh.1)]

theorem bucketGet_setdefault (path : List (String × List (String × List FnEntry)))
    (dd dq bq : String) :
    bucketGet (dsetdefault dd [] path) dq bq = bucketGet path dq bq := by
  unfold bucketGet
  rw [dlookup_dsetdefault]
  by_cases hd : dd = dq
  · subst hd
    rw [if_pos rfl, Option.getD_some]
  · rw [if_neg hd]

theorem bucketGet_setdefaultFold (dirs : List String)
    (path : List (String × List (String × List FnEntry))) (dq bq : String) :
    bucketGet (dirs.foldl (fun p dd => dsetdefault dd [] p) path) dq bq =
      bucketGet path dq bq := by
  induction dirs generalizing path with
  | nil => rfl
  | cons dd rest ih =>
    rw [List.foldl_cons, ih, bucketGet_setdefault]

theorem bucketGet_addFold (l : List Nat) (dns bns : List String) (mk : Nat → FnEntry)
    (path : List (String × List (String × List FnEntry))) (dq bq : String) :
    bucketGet (l.foldl (fun p i =>
        bucketAppend p (dns.getD i "") (bns.getD i "") (mk i)) path) dq bq =
      bucketGet path dq bq ++
        ((l.filter (fun i => decide (dns.getD i "" = dq ∧ bns.getD i "" = bq))).map mk) := by
  induction l generalizing path with
  | nil => simp
  | cons i rest ih =>
    rw [List.foldl_cons, ih, bucketGet_append]
    by_cases hm : dns.getD i "" = dq ∧ bns.getD i "" = bq
    · rw [if_pos hm, List.filter_cons_of_pos (by simpa using hm)]
      simp
    · rw [if_neg hm, List.filter_cons_of_neg (by simpa using hm)]

theorem bucketGet_removeFold (l : List Nat) (dns bns : List String) (mk : Nat → FnEntry)
    (path : List (String × List (String × List FnEntry))) (dq bq : String) :
    bucketGet (l.foldl (fun p i =>
        bucketRemove p (dns.getD i "") (bns.getD i "") (mk i)) path) dq bq =
      ((l.filter (fun i => decide (dns.getD i "" = dq ∧ bns.getD i "" = bq))).map mk).foldl
        (fun lst e => eraseFirst e lst) (bucketGet path dq bq) := by
  induction l generalizing path with
  | nil => simp
  | cons i rest ih =>
    rw [List.foldl_cons, ih, bucketGet_remove]
    by_cases hm : dns.getD i "" = dq ∧ bns.getD i "" = bq
    · rw [if_pos hm, List.filter_cons_of_pos (by simpa using hm)]
      simp
    · rw [if_neg hm, List.filter_cons_of_neg (by simpa using hm)]

theorem eraseFirst_append_notmem2 (e : FnEntry) (L X : List FnEntry) (h : e ∉ L) :
    eraseFirst e (L ++ e :: X) = L ++ X := by
  induction L with
  | nil => simp [eraseFirst]
  | cons a rest ih =>
    have ha : ¬ a = e := fun hh => h (hh ▸ List.mem_cons_self a rest)
    have hr : e ∉ rest := fun hm => h (List.mem_cons_of_mem _ hm)
    simp only [List.cons_append]
    rw [show eraseFirst e (a :: (rest ++ e :: X)) = a :: eraseFirst e (rest ++ e :: X) by
      simp [eraseFirst, ha]]
    rw [ih hr]

theorem erase_appended (M L : List FnEntry) (h : ∀ e ∈ M, e ∉ L) :
    M.foldl (fun l e => eraseFirst e l) (L ++ M) = L := by
  induction M generalizing L with
  | nil => simp
  | cons e M2 ih =>
    rw [List.foldl_cons]
    rw [eraseFirst_append_notmem2 e L M2 (h e (by simp))]
    exact ih L (fun e2 hm => h e2 (List.mem_cons_of_mem _ hm))

theorem fnlSearch_eq (fl : FilenamesList) (q : String) :
    fnlSearch fl q =
      (bucketGet fl.path (slashTerminate (pySplitPath q).1) (pySplitPath q).2).map
        (fun r => r.1) := rfl

/-- C10 (amended): for every FilenamesList whose buckets contain no entry
of pkg (in particular whenever pkg is not yet installed), addPkg(pkg)
followed by removePkg(pkg) leaves every search result unchanged, for any
checkfileconflicts setting; if pkg already owns files, the owner order
inside the affected buckets can change (see the counterexample). -/
theorem c10_add_remove_roundtrip : ∀ (fl : FilenamesList) (pkg : RpmPackage) (q : String),
    (∀ d b, ∀ e ∈ bucketGet fl.path d b, e.1 ≠ pkg.id) →
    fnlSearch (fnlRemovePkg (fnlAddPkg fl pkg) pkg) q = fnlSearch fl q := by
  intro fl pkg q hfresh
  unfold fnlAddPkg fnlRemovePkg
  rcases hn : fnlNames pkg with _ | ⟨bns, dns⟩
  · rfl
  · dsimp only
    rw [fnlSearch_eq, fnlSearch_eq]
    dsimp only
    rw [bucketGet_removeFold (List.range bns.length) dns bns
      (fun i => (pkg.id, if fl.checkfileconflicts then some i else none))]
    rw [bucketGet_addFold (List.range bns.length) dns bns
      (fun i => (pkg.id, if fl.checkfileconflicts then some i else none))]
    rw [bucketGet_setdefaultFold]
    rw [erase_appended]
    intro e he hmem
    have he1 : e.1 = pkg.id := by
      rcases List.mem_map.mp he with ⟨i, _, hei⟩
      rw [← hei]
    exact hfresh _ _ e hmem he1


/-- C10 counterexample: adding a package that is already present and then
removing it reorders the owner list, because addPkg appends a second copy
at the end of each bucket and removePkg deletes the FIRST matching entry;
with packages 1, 5, 2 each owning /a/x, add+remove of package 5 turns the
search result [1, 5, 2] into [1, 2, 5]. -/
theorem c10_filenameslist_counterexample :
    fnlSearch exFnl "/a/x" = [1, 5, 2] ∧
    fnlSearch (fnlRemovePkg (fnlAddPkg exFnl (onefilePkg 5)) (onefilePkg 5)) "/a/x"
      = [1, 2, 5] ∧
    ([1, 2, 5] : List Nat) ≠ [1, 5, 2] := by decide

/-- Witness for C10: the empty FilenamesList, package 5, query /a/x. -/
theorem c10_add_remove_roundtrip_witness :
    fnlSearch (fnlRemovePkg (fnlAddPkg ⟨true, []⟩ (onefilePkg 5)) (onefilePkg 5)) "/a/x" =
      fnlSearch ⟨true, []⟩ "/a/x" :=
  c10_add_remove_roundtrip ⟨true, []⟩ (onefilePkg 5) "/a/x"
    (by intro d b e h; simp [bucketGet, dlookup] at h)


/-- C7 counterexample: with one normal tag a, one install-only tag i and
the region tag r, the code emits the region's store bytes between the
normal and the install-only bytes, not at the back of the store; the
emitted header therefore differs from the order the claim describes
(normal, install-only, region last). -/
theorem c7_writeHeader_counterexample :
    (writeHeader exTags exNumOf exTypeOf (fun _ => false) "r" [] true ["i"] 0).2.2.2 =
      [65, 0] ++ List.replicate 16 7 ++ [73, 0] ∧
    (writeHeaderSpecOrder exTags exNumOf exTypeOf (fun _ => false) "r" [] true ["i"] 0).2.2.2 =
      [65, 0, 73, 0] ++ List.replicate 16 7 ∧
    writeHeader exTags exNumOf exTypeOf (fun _ => false) "r" [] true ["i"] 0 ≠
      writeHeaderSpecOrder exTags exNumOf exTypeOf (fun _ => false) "r" [] true ["i"] 0 := by
  decide

theorem whItems_fst (tags : List (String × TagValue)) (typeOf : Nat → Nat)
    (signedOf : Nat → Bool) (rpmgroup : Nat) :
    ∀ (stags : List (Nat × String)) (off : Nat),
      (whItems tags typeOf signedOf rpmgroup stags off).map (fun it => it.1) = stags := by
  intro stags
  induction stags with
  | nil => intro off; rfl
  | cons ts rest ih =>
    intro off
    obtain ⟨tagnum, tagname⟩ := ts
    simp only [whItems, List.map_cons, ih]

theorem mem_insortTag (x y : Nat × String) (l : List (Nat × String)) :
    y ∈ insortTag x l → y = x ∨ y ∈ l := by
  induction l with
  | nil => simp [insortTag]
  | cons z zs ih =>
    simp only [insortTag]
    by_cases h : tagPairLe z x = true
    · rw [if_pos h]
      intro hm
      rcases List.mem_cons.mp hm with h1 | h2
      · exact Or.inr (List.mem_cons.mpr (Or.inl h1))
      · rcases ih h2 with h3 | h4
        · exact Or.inl h3
        · exact Or.inr (List.mem_cons.mpr (Or.inr h4))
    · rw [if_neg h]
      intro hm
      rcases List.mem_cons.mp hm with h1 | h2
      · exact Or.inl h1
      · exact Or.inr h2

theorem mem_sortTags (y : Nat × String) (l : List (Nat × String)) :
    y ∈ sortTags l → y ∈ l := by
  have key : ∀ (l acc : List (Nat × String)),
      y ∈ l.foldl (fun acc x => insortTag x acc) acc → y ∈ acc ∨ y ∈ l := by
    intro l
    induction l with
    | nil => intro acc h; exact Or.inl h
    | cons x xs ih =>
      intro acc h
      rcases ih (insortTag x acc) h with h1 | h2
      · rcases mem_insortTag x y acc h1 with h3 | h4
        · exact Or.inr (List.mem_cons.mpr (Or.inl h3))
        · exact Or.inl h4
      · exact Or.inr (List.mem_cons.mpr (Or.inr h2))
  intro h
  rcases key l [] h with h1 | h2
  · exact absurd h1 (List.not_mem_nil y)
  · exact h2

theorem whClassify (numOf : String → Nat) (region : String) (skip_tags : List String)
    (useinstall : Bool) (install_keys : List String) :
    ∀ (tagnames : List String)
      (s1 s2 s3 : List (Nat × String)),
      tagnames.foldl (fun acc tagname =>
        let (s1, s2, s3) := acc
        let tagnum := numOf tagname
        if tagname = region then (s1, s2, s3 ++ [(tagnum, tagname)])
        else if skip_tags.contains tagname then (s1, s2, s3)
        else if useinstall && install_keys.contains tagname then
          (s1, s2 ++ [(tagnum, tagname)], s3)
        else (s1 ++ [(tagnum, tagname)], s2, s3)) (s1, s2, s3) =
      (s1 ++ (tagnames.filter (fun t =>
          !(t == region) && !skip_tags.contains t &&
            !(useinstall && install_keys.contains t))).map (fun t => (numOf t, t)),
       s2 ++ (tagnames.filter (fun t =>
          !(t == region) && !skip_tags.contains t &&
            (useinstall && install_keys.contains t))).map (fun t => (numOf t, t)),
       s3 ++ (tagnames.filter (fun t => t == region)).map (fun t => (numOf t, t))) := by
  intro tagnames
  induction tagnames with
  | nil => intro s1 s2 s3; simp
  | cons t rest ih =>
    intro s1 s2 s3
    rw [List.foldl_cons]
    dsimp only
    by_cases hr : t = region
    · rw [if_pos hr, ih]
      simp [hr]
    · rw [if_neg hr]
      by_cases hs : skip_tags.contains t
      · rw [if_pos hs, ih]
        simp at hs
        simp [hr, hs]
      · rw [if_neg hs]
        simp at hs
        by_cases hi : useinstall && install_keys.contains t
        · rw [if_pos hi, ih]
          simp at hi
          simp [hr, hs, hi]
        · rw [if_neg hi, ih]
          simp at hi
          have hand : (useinstall && decide (t ∈ install_keys)) = false := by
            cases hu : useinstall
            · simp
            · simp [hi hu]
          have hor : (!useinstall || !decide (t ∈ install_keys)) = true := by
            cases hu : useinstall
            · simp
            · simp [hi hu]
          simp [hr, hs, hand, hor]

theorem whFold_decomp (tags : List (String × TagValue)) (typeOf : Nat → Nat)
    (signedOf : Nat → Bool) (region : String) (rpmgroup : Nat) :
    ∀ (stags : List (Nat × String)) (off : Nat) (store idx : List (List Nat)),
      (stags.foldl (whStep tags typeOf signedOf region rpmgroup) (off, store, idx)).1 =
          off + ((whItems tags typeOf signedOf rpmgroup stags off).map
            (fun it => it.2.1)).flatten.length
      ∧ (stags.foldl (whStep tags typeOf signedOf region rpmgroup)
            (off, store, idx)).2.1.flatten =
          store.flatten ++ ((whItems tags typeOf signedOf rpmgroup stags off).map
            (fun it => it.2.1)).flatten
      ∧ (stags.foldl (whStep tags typeOf signedOf region rpmgroup)
            (off, store, idx)).2.2 =
          (((whItems tags typeOf signedOf rpmgroup stags off).filter
              (fun it => it.1.2 == region)).map (fun it => it.2.2)).reverse
            ++ idx ++
            ((whItems tags typeOf signedOf rpmgroup stags off).filter
              (fun it => !(it.1.2 == region))).map (fun it => it.2.2) := by
  intro stags
  induction stags with
  | nil => intro off store idx; simp [whItems]
  | cons ts rest ih =>
    intro off store idx
    obtain ⟨tagnum, tagname⟩ := ts
    rcases hsv : serializeValue
        (resolveType (typeOf tagnum) ((dlookup tagname tags).getD (.bin [])) rpmgroup)
        (signedOf tagnum) ((dlookup tagname tags).getD (.bin [])) off
      with ⟨data, count, pad⟩
    rw [List.foldl_cons]
    simp only [whStep, whItems, hsv]
    by_cases hr : tagname = region
    · rw [if_pos hr]
      by_cases hp : pad = 0
      · subst hp
        simp only [ne_eq, if_neg (by simp : ¬ (0 : Nat) ≠ 0)]
        refine ⟨?_, ?_, ?_⟩
        · rw [(ih _ _ _).1]
          simp only [List.map_cons, List.flatten_cons, List.length_append,
            List.length_replicate]
          omega
        · rw [(ih _ _ _).2.1]
          simp
        · rw [(ih _ _ _).2.2]
          rw [List.filter_cons_of_pos (by simp [hr]),
            List.filter_cons_of_neg (by simp [hr])]
          simp
      · rw [if_pos hp]
        refine ⟨?_, ?_, ?_⟩
        · rw [(ih _ _ _).1]
          simp only [List.map_cons, List.flatten_cons, List.length_append,
            List.length_replicate]
          omega
        · rw [(ih _ _ _).2.1]
          simp
        · rw [(ih _ _ _).2.2]
          rw [List.filter_cons_of_pos (by simp [hr]),
            List.filter_cons_of_neg (by simp [hr])]
          simp
    · rw [if_neg hr]
      by_cases hp : pad = 0
      · subst hp
        simp only [ne_eq, if_neg (by simp : ¬ (0 : Nat) ≠ 0)]
        refine ⟨?_, ?_, ?_⟩
        · rw [(ih _ _ _).1]
          simp only [List.map_cons, List.flatten_cons, List.length_append,
            List.length_replicate]
          omega
        · rw [(ih _ _ _).2.1]
          simp
        · rw [(ih _ _ _).2.2]
          rw [List.filter_cons_of_neg (by simp [hr]),
            List.filter_cons_of_pos (by simp [hr])]
          simp
      · rw [if_pos hp]
        refine ⟨?_, ?_, ?_⟩
        · rw [(ih _ _ _).1]
          simp only [List.map_cons, List.flatten_cons, List.length_append,
            List.length_replicate]
          omega
        · rw [(ih _ _ _).2.1]
          simp
        · rw [(ih _ _ _).2.2]
          rw [List.filter_cons_of_neg (by simp [hr]),
            List.filter_cons_of_pos (by simp [hr])]
          simp

theorem wh_assemble (tags : List (String × TagValue)) (typeOf : Nat → Nat)
    (signedOf : Nat → Bool) (region : String) (rpmgroup : Nat) (n0 : Nat)
    (A B : List (Nat × String))
    (hA : ∀ x ∈ A, x.2 ≠ region) (hB : ∀ x ∈ B, x.2 ≠ region) :
    ((A ++ [(n0, region)] ++ B).foldl (whStep tags typeOf signedOf region rpmgroup)
        (0, [], [])).2.1.flatten =
      ((whItems tags typeOf signedOf rpmgroup (A ++ [(n0, region)] ++ B) 0).map
        (fun it => it.2.1)).flatten
    ∧ ((A ++ [(n0, region)] ++ B).foldl (whStep tags typeOf signedOf region rpmgroup)
        (0, [], [])).2.2.flatten =
      (((whItems tags typeOf signedOf rpmgroup (A ++ [(n0, region)] ++ B) 0).filter
          (fun it => it.1.2 == region)).map (fun it => it.2.2)).flatten ++
      (((whItems tags typeOf signedOf rpmgroup (A ++ [(n0, region)] ++ B) 0).filter
          (fun it => !(it.1.2 == region))).map (fun it => it.2.2)).flatten := by
  obtain ⟨h1, h2, h3⟩ := whFold_decomp tags typeOf signedOf region rpmgroup
    (A ++ [(n0, region)] ++ B) 0 [] []
  constructor
  · rw [h2]
    simp
  · rw [h3]
    have hfst := whItems_fst tags typeOf signedOf rpmgroup (A ++ [(n0, region)] ++ B) 0
    have hlen : ((whItems tags typeOf signedOf rpmgroup (A ++ [(n0, region)] ++ B) 0).filter
        (fun it => it.1.2 == region)).length = 1 := by
      rw [← List.countP_eq_length_filter]
      have hc : (whItems tags typeOf signedOf rpmgroup (A ++ [(n0, region)] ++ B) 0).countP
          (fun it => it.1.2 == region) =
          ((whItems tags typeOf signedOf rpmgroup (A ++ [(n0, region)] ++ B) 0).map
            (fun it => it.1)).countP (fun ts => ts.2 == region) := by
        rw [List.countP_map]
        rfl
      rw [hc, hfst, List.countP_append, List.countP_append]
      have hca : A.countP (fun ts => ts.2 == region) = 0 := by
        rw [List.countP_eq_zero]
        intro x hx
        simp [hA x hx]
      have hcb : B.countP (fun ts => ts.2 == region) = 0 := by
        rw [List.countP_eq_zero]
        intro x hx
        simp [hB x hx]
      rw [hca, hcb]
      simp [List.countP_cons]
    have hm : (((whItems tags typeOf signedOf rpmgroup (A ++ [(n0, region)] ++ B) 0).filter
        (fun it => it.1.2 == region)).map (fun it => it.2.2)).length = 1 := by
      rw [List.length_map, hlen]
    obtain ⟨a, ha⟩ := List.length_eq_one.mp hm
    rw [ha]
    simp

/-- C7 (amended): when the region tag occurs exactly once among the tag
keys, writeHeader emits the normal tags sorted by (number, name), then
the region tag, then the install-only tags sorted; the region marker's
16-byte index entry is moved to the front of the emitted index while the
store keeps the emit order, so the region's value bytes precede the
install-only tags' bytes rather than ending the store. -/
theorem c7_writeHeader_spec (tags : List (String × TagValue)) (numOf : String → Nat)
    (typeOf : Nat → Nat) (signedOf : Nat → Bool) (region : String)
    (skip_tags : List String) (useinstall : Bool) (install_keys : List String)
    (rpmgroup : Nat)
    (hf : (tags.map (fun t => t.1)).filter (fun t => t == region) = [region]) :
    writeHeader tags numOf typeOf signedOf region skip_tags useinstall install_keys
        rpmgroup =
      writeHeaderSpec tags numOf typeOf signedOf region skip_tags useinstall
        install_keys rpmgroup := by
  have horder : writeHeaderOrder numOf region skip_tags useinstall install_keys
      (tags.map (fun t => t.1)) =
      sortTags (((tags.map (fun t => t.1)).filter (fun t =>
          !(t == region) && !skip_tags.contains t &&
            !(useinstall && install_keys.contains t))).map (fun t => (numOf t, t)))
        ++ [(numOf region, region)] ++
        sortTags (((tags.map (fun t => t.1)).filter (fun t =>
          !(t == region) && !skip_tags.contains t &&
            (useinstall && install_keys.contains t))).map (fun t => (numOf t, t))) := by
    unfold writeHeaderOrder
    rw [whClassify]
    simp [hf]
  unfold writeHeader writeHeaderSpec writeHeaderLoop
  rw [horder]
  set A := sortTags (((tags.map (fun t => t.1)).filter (fun t =>
      !(t == region) && !skip_tags.contains t &&
        !(useinstall && install_keys.contains t))).map (fun t => (numOf t, t))) with hAdef
  set B := sortTags (((tags.map (fun t => t.1)).filter (fun t =>
      !(t == region) && !skip_tags.contains t &&
        (useinstall && install_keys.contains t))).map (fun t => (numOf t, t))) with hBdef
  have hA : ∀ x ∈ A, x.2 ≠ region := by
    intro x hx
    rw [hAdef] at hx
    obtain ⟨t, ht, rfl⟩ := List.mem_map.mp (mem_sortTags x _ hx)
    have := (List.mem_filter.mp ht).2
    simp only [Bool.and_eq_true, Bool.not_eq_true'] at this
    simpa using this.1.1
  have hB : ∀ x ∈ B, x.2 ≠ region := by
    intro x hx
    rw [hBdef] at hx
    obtain ⟨t, ht, rfl⟩ := List.mem_map.mp (mem_sortTags x _ hx)
    have := (List.mem_filter.mp ht).2
    simp only [Bool.and_eq_true, Bool.not_eq_true'] at this
    simpa using this.1.1
  obtain ⟨hst, hidx⟩ := wh_assemble tags typeOf signedOf region rpmgroup
    (numOf region) A B hA hB
  rcases hl : (A ++ [(numOf region, region)] ++ B).foldl
      (whStep tags typeOf signedOf region rpmgroup) (0, [], []) with ⟨offF, store, idx⟩
  rw [hl] at hst hidx
  dsimp only at hst hidx
  dsimp only
  rw [← hAdef, ← hBdef, hl]
  dsimp only
  rw [hst, hidx]

/-- Witness for C7 at the concrete example tag set. -/
theorem c7_writeHeader_spec_witness :
    writeHeader exTags exNumOf exTypeOf (fun _ => false) "r" [] true ["i"] 0 =
      writeHeaderSpec exTags exNumOf exTypeOf (fun _ => false) "r" [] true ["i"] 0 :=
  c7_writeHeader_spec exTags exNumOf exTypeOf (fun _ => false) "r" [] true ["i"] 0 (by decide)


theorem dlookup_ddelete_ne {κ α : Type} [DecidableEq κ] (k2 k : κ) (d : List (κ × α))
    (h : k2 ≠ k) : dlookup k (ddelete k2 d) = dlookup k d := by
  induction d with
  | nil => rfl
  | cons hd rest ih =>
    obtain ⟨k3, v3⟩ := hd
    by_cases h3 : k3 = k2
    · subst h3
      simp only [ddelete, if_pos rfl, dlookup, if_neg h, if_true]
    · simp only [ddelete, if_neg h3, dlookup]
      by_cases h4 : k3 = k
      · rw [if_pos h4, if_pos h4]
      · rw [if_neg h4, if_neg h4, ih]

theorem ddelete_sublist {κ α : Type} [DecidableEq κ] (k : κ) (d : List (κ × α)) :
    (ddelete k d).Sublist d := by
  induction d with
  | nil => simp [ddelete]
  | cons hd rest ih =>
    obtain ⟨k3, v3⟩ := hd
    by_cases h3 : k3 = k
    · simp only [ddelete, if_pos h3]
      exact (List.sublist_cons_self _ _)
    · simp only [ddelete, if_neg h3]
      exact List.Sublist.cons₂ _ ih

theorem dmodify_keys {κ α : Type} [DecidableEq κ] (k : κ) (f : α → α) (d : List (κ × α)) :
    (dmodify k f d).map Prod.fst = d.map Prod.fst := by
  induction d with
  | nil => rfl
  | cons hd rest ih =>
    obtain ⟨k3, v3⟩ := hd
    by_cases h3 : k3 = k <;> simp [dmodify, h3, ih]

theorem dinsert_keys_of_present {κ α : Type} [DecidableEq κ] (k : κ) (v : α)
    (d : List (κ × α)) (h : (dlookup k d).isSome = true) :
    (dinsert k v d).map Prod.fst = d.map Prod.fst := by
  induction d with
  | nil => simp [dlookup] at h
  | cons hd rest ih =>
    obtain ⟨k3, v3⟩ := hd
    by_cases h3 : k3 = k
    · simp [dinsert, h3]
    · simp only [dlookup, if_neg h3] at h
      simp [dinsert, h3, ih h]

theorem dlookup_isSome_iff {κ α : Type} [DecidableEq κ] (k : κ) (d : List (κ × α)) :
    (dlookup k d).isSome = true ↔ k ∈ d.map Prod.fst := by
  induction d with
  | nil => simp [dlookup]
  | cons hd rest ih =>
    obtain ⟨k3, v3⟩ := hd
    by_cases h3 : k3 = k
    · simp [dlookup, h3]
    · simp only [dlookup, if_neg h3, List.map_cons, List.mem_cons, ih]
      constructor
      · intro hm
        exact Or.inr hm
      · rintro (hm | hm)
        · exact absurd hm.symm h3
        · exact hm

theorem dlookup_of_mem_nodup {κ α : Type} [DecidableEq κ] (k : κ) (v : α)
    (d : List (κ × α)) (hn : (d.map Prod.fst).Nodup) (hm : (k, v) ∈ d) :
    dlookup k d = some v := by
  induction d with
  | nil => simp at hm
  | cons hd rest ih =>
    obtain ⟨k3, v3⟩ := hd
    simp only [List.map_cons, List.nodup_cons] at hn
    rcases List.mem_cons.mp hm with h1 | h2
    · injection h1 with h1a h1b
      subst h1a; subst h1b
      simp [dlookup]
    · have hk3 : k3 ≠ k := by
        intro hh
        subst hh
        exact hn.1 (List.mem_map.mpr ⟨(k3, v), h2, rfl⟩)
      simp only [dlookup, if_neg hk3]
      exact ih hn.2 h2

theorem pre_dmodify_of (g : List (Nat × Relation)) (k : Nat) (F : Relation → Relation)
    (A : Nat) (hF : ∀ r, (F r).pre = r.pre) :
    ((dlookup A (dmodify k F g)).getD emptyRelation).pre =
      ((dlookup A g).getD emptyRelation).pre := by
  rw [dlookup_dmodify]
  by_cases h : k = A
  · rw [if_pos h]
    subst h
    rcases hg : dlookup k g with _ | r
    · rfl
    · simp [hF]
  · rw [if_neg h]

theorem post_dmodify_of (g : List (Nat × Relation)) (k : Nat) (F : Relation → Relation)
    (A : Nat) (hF : ∀ r, (F r).post = r.post) :
    ((dlookup A (dmodify k F g)).getD emptyRelation).post =
      ((dlookup A g).getD emptyRelation).post := by
  rw [dlookup_dmodify]
  by_cases h : k = A
  · rw [if_pos h]
    subst h
    rcases hg : dlookup k g with _ | r
    · rfl
    · simp [hF]
  · rw [if_neg h]

theorem prelookup_dmodify_predel (g : List (Nat × Relation)) (k n A B : Nat)
    (hB : n ≠ B) :
    dlookup B ((dlookup A (dmodify k (fun r =>
        { r with pre := ddelete n r.pre }) g)).getD emptyRelation).pre =
      dlookup B ((dlookup A g).getD emptyRelation).pre := by
  rw [dlookup_dmodify]
  by_cases h : k = A
  · rw [if_pos h]
    subst h
    rcases hg : dlookup k g with _ | r
    · rfl
    · simp only [Option.map_some', Option.getD_some]
      exact dlookup_ddelete_ne n B r.pre hB
  · rw [if_neg h]

theorem postlookup_dmodify_postdel (g : List (Nat × Relation)) (k n A B : Nat)
    (hA : n ≠ A) :
    dlookup A ((dlookup B (dmodify k (fun r =>
        { r with post := ddelete n r.post }) g)).getD emptyRelation).post =
      dlookup A ((dlookup B g).getD emptyRelation).post := by
  rw [dlookup_dmodify]
  by_cases h : k = B
  · rw [if_pos h]
    subst h
    rcases hg : dlookup k g with _ | r
    · rfl
    · simp only [Option.map_some', Option.getD_some]
      exact dlookup_ddelete_ne n A r.post hA
  · rw [if_neg h]

theorem rm_pre_lookup (st : RpmRelations) (n A B : Nat) (hA : n ≠ A) (hB : n ≠ B) :
    dlookup B (getRel (removeRelation st n) A).pre =
      dlookup B (getRel st A).pre := by
  unfold removeRelation getRel
  dsimp only
  rw [dlookup_ddelete_ne n A _ hA]
  have h2 : ∀ (l : List (Nat × Nat)) (g : List (Nat × Relation)),
      dlookup B ((dlookup A (l.foldl (fun g po =>
        dmodify po.1 (fun r => { r with pre := ddelete n r.pre }) g) g)).getD
          emptyRelation).pre =
      dlookup B ((dlookup A g).getD emptyRelation).pre := by
    intro l
    induction l with
    | nil => intro g; rfl
    | cons po rest ih =>
      intro g
      rw [List.foldl_cons, ih, prelookup_dmodify_predel _ _ _ _ _ hB]
  have h1 : ∀ (l : List (Nat × Nat)) (g : List (Nat × Relation)),
      ((dlookup A (l.foldl (fun g pr =>
        dmodify pr.1 (fun r => { r with post := ddelete n r.post }) g) g)).getD
          emptyRelation).pre =
      ((dlookup A g).getD emptyRelation).pre := by
    intro l
    induction l with
    | nil => intro g; rfl
    | cons pr rest ih =>
      intro g
      rw [List.foldl_cons, ih, pre_dmodify_of]
      intro r
      rfl
  rw [h2, h1]

theorem rm_post_lookup (st : RpmRelations) (n A B : Nat) (hA : n ≠ A) (hB : n ≠ B) :
    dlookup A (getRel (removeRelation st n) B).post =
      dlookup A (getRel st B).post := by
  unfold removeRelation getRel
  dsimp only
  rw [dlookup_ddelete_ne n B _ hB]
  have h2 : ∀ (l : List (Nat × Nat)) (g : List (Nat × Relation)),
      ((dlookup B (l.foldl (fun g po =>
        dmodify po.1 (fun r => { r with pre := ddelete n r.pre }) g) g)).getD
          emptyRelation).post =
      ((dlookup B g).getD emptyRelation).post := by
    intro l
    induction l with
    | nil => intro g; rfl
    | cons po rest ih =>
      intro g
      rw [List.foldl_cons, ih, post_dmodify_of]
      intro r
      rfl
  have h1 : ∀ (l : List (Nat × Nat)) (g : List (Nat × Relation)),
      dlookup A ((dlookup B (l.foldl (fun g pr =>
        dmodify pr.1 (fun r => { r with post := ddelete n r.post }) g) g)).getD
          emptyRelation).post =
      dlookup A ((dlookup B g).getD emptyRelation).post := by
    intro l
    induction l with
    | nil => intro g; rfl
    | cons pr rest ih =>
      intro g
      rw [List.foldl_cons, ih, postlookup_dmodify_postdel _ _ _ _ _ hA]
  rw [h2, h1]

theorem rm_key_isSome (st : RpmRelations) (n A : Nat) (hA : n ≠ A) :
    (dlookup A (removeRelation st n).graph).isSome =
      (dlookup A st.graph).isSome := by
  unfold removeRelation
  dsimp only
  rw [dlookup_ddelete_ne n A _ hA]
  have hstep : ∀ (l : List (Nat × Nat)) (g : List (Nat × Relation))
      (F : Nat → Relation → Relation),
      (dlookup A (l.foldl (fun g pr => dmodify pr.1 (F pr.1) g) g)).isSome =
        (dlookup A g).isSome := by
    intro l
    induction l with
    | nil => intro g F; rfl
    | cons pr rest ih =>
      intro g F
      rw [List.foldl_cons, ih, dlookup_dmodify]
      by_cases h : pr.1 = A
      · rw [if_pos h]
        subst h
        rcases hg : dlookup pr.1 g with _ | r <;> rfl
      · rw [if_neg h]
  rw [hstep _ _ (fun p r => { r with pre := ddelete n r.pre }),
    hstep _ _ (fun p r => { r with post := ddelete n r.post })]

theorem rm_nodup (st : RpmRelations) (n : Nat)
    (hn : (st.graph.map Prod.fst).Nodup) :
    ((removeRelation st n).graph.map Prod.fst).Nodup := by
  unfold removeRelation
  dsimp only
  have hkeys : ∀ (l : List (Nat × Nat)) (g : List (Nat × Relation))
      (F : Nat → Relation → Relation),
      (l.foldl (fun g pr => dmodify pr.1 (F pr.1) g) g).map Prod.fst =
        g.map Prod.fst := by
    intro l
    induction l with
    | nil => intro g F; rfl
    | cons pr rest ih =>
      intro g F
      rw [List.foldl_cons, ih, dmodify_keys]
  refine List.Nodup.sublist (List.Sublist.map _ (ddelete_sublist _ _)) ?_
  rw [hkeys _ _ (fun p r => { r with pre := ddelete n r.pre }),
    hkeys _ _ (fun p r => { r with post := ddelete n r.post })]
  exact hn

theorem rm_dropped (st : RpmRelations) (n : Nat) :
    (removeRelation st n).dropped = st.dropped := rfl

theorem dlookup_isSome_dinsert {κ α : Type} [DecidableEq κ] (k q : κ) (v : α)
    (d : List (κ × α)) (h : (dlookup q d).isSome = true) :
    (dlookup q (dinsert k v d)).isSome = true := by
  rw [dlookup_dinsert]
  by_cases hk : k = q
  · rw [if_pos hk]
    rfl
  · rw [if_neg hk]
    exact h

theorem drop_fold_dropped (hard node next : Nat) (l : List (Nat × Nat)) :
    ∀ (acc : RpmRelations),
    (l.foldl (fun acc ppr =>
      let p := ppr.1
      if p = next ∨ p = node then acc
      else if ((dlookup p acc.dropped).getD []).contains next then acc
      else
        let acc2 :=
          if (dlookup next (getRel acc p).pre).isNone then
            let req := if hard ≠ 0 ∧ ((dlookup node (getRel acc p).pre).getD 0 &&& HARD ≠ 0)
              then HARD else SOFT
            let g := dmodify p (fun r => { r with pre := dinsert next (VIRTUAL ||| req) r.pre }) acc.graph
            { acc with graph := g }
          else acc
        if (dlookup p (getRel acc2 next).post).isNone then
          let g := dmodify next (fun r => { r with post := dinsert p VIRTUAL r.post }) acc2.graph
          { acc2 with graph := g }
        else acc2) acc).dropped = acc.dropped := by
  induction l with
  | nil => intro acc; rfl
  | cons ppr rest ih =>
    intro acc
    rw [List.foldl_cons, ih]
    dsimp only
    repeat' split
    all_goals rfl

theorem drop_fold_keys (hard node next : Nat) (l : List (Nat × Nat)) :
    ∀ (acc : RpmRelations),
    (l.foldl (fun acc ppr =>
      let p := ppr.1
      if p = next ∨ p = node then acc
      else if ((dlookup p acc.dropped).getD []).contains next then acc
      else
        let acc2 :=
          if (dlookup next (getRel acc p).pre).isNone then
            let req := if hard ≠ 0 ∧ ((dlookup node (getRel acc p).pre).getD 0 &&& HARD ≠ 0)
              then HARD else SOFT
            let g := dmodify p (fun r => { r with pre := dinsert next (VIRTUAL ||| req) r.pre }) acc.graph
            { acc with graph := g }
          else acc
        if (dlookup p (getRel acc2 next).post).isNone then
          let g := dmodify next (fun r => { r with post := dinsert p VIRTUAL r.post }) acc2.graph
          { acc2 with graph := g }
        else acc2) acc).graph.map Prod.fst = acc.graph.map Prod.fst := by
  induction l with
  | nil => intro acc; rfl
  | cons ppr rest ih =>
    intro acc
    rw [List.foldl_cons, ih]
    dsimp only
    repeat' split
    all_goals simp [dmodify_keys]

theorem dlookup_nil {κ α : Type} [DecidableEq κ] (k : κ) :
    dlookup k ([] : List (κ × α)) = none := rfl

theorem emptyRelation_pre : (emptyRelation).pre = [] := rfl

theorem emptyRelation_post : (emptyRelation).post = [] := rfl

theorem pre_isSome_postmod (g : List (Nat × Relation)) (k A B : Nat)
    (F : Relation → Relation) (hF : ∀ r, (F r).pre = r.pre)
    (h : (dlookup B ((dlookup A g).getD emptyRelation).pre).isSome = true) :
    (dlookup B ((dlookup A (dmodify k F g)).getD emptyRelation).pre).isSome = true := by
  rw [pre_dmodify_of g k F A hF]
  exact h

theorem post_isSome_premod (g : List (Nat × Relation)) (k A B : Nat)
    (F : Relation → Relation) (hF : ∀ r, (F r).post = r.post)
    (h : (dlookup A ((dlookup B g).getD emptyRelation).post).isSome = true) :
    (dlookup A ((dlookup B (dmodify k F g)).getD emptyRelation).post).isSome = true := by
  rw [post_dmodify_of g k F B hF]
  exact h

theorem pre_isSome_predinsert (g : List (Nat × Relation)) (p x v A B : Nat)
    (h : (dlookup B ((dlookup A g).getD emptyRelation).pre).isSome = true) :
    (dlookup B ((dlookup A (dmodify p (fun r =>
      { r with pre := dinsert x v r.pre }) g)).getD emptyRelation).pre).isSome = true := by
  rw [dlookup_dmodify]
  by_cases hp : p = A
  · rw [if_pos hp]
    subst hp
    rcases hg : dlookup p g with _ | r
    · rw [hg] at h
      simp only [Option.getD_none, emptyRelation_pre, dlookup_nil, Option.isSome_none] at h
      exact absurd h (by decide)
    · rw [hg] at h
      simp only [Option.getD_some] at h
      simp only [Option.map_some', Option.getD_some]
      exact dlookup_isSome_dinsert x B v r.pre h
  · rw [if_neg hp]
    exact h

theorem post_isSome_postdinsert (g : List (Nat × Relation)) (p x v A B : Nat)
    (h : (dlookup A ((dlookup B g).getD emptyRelation).post).isSome = true) :
    (dlookup A ((dlookup B (dmodify p (fun r =>
      { r with post := dinsert x v r.post }) g)).getD emptyRelation).post).isSome = true := by
  rw [dlookup_dmodify]
  by_cases hp : p = B
  · rw [if_pos hp]
    subst hp
    rcases hg : dlookup p g with _ | r
    · rw [hg] at h
      simp only [Option.getD_none, emptyRelation_post, dlookup_nil, Option.isSome_none] at h
      exact absurd h (by decide)
    · rw [hg] at h
      simp only [Option.getD_some] at h
      simp only [Option.map_some', Option.getD_some]
      exact dlookup_isSome_dinsert x A v r.post h
  · rw [if_neg hp]
    exact h

theorem drop_fold_pre (hard node next A B : Nat) (l : List (Nat × Nat)) :
    ∀ (acc : RpmRelations),
    (dlookup B (getRel acc A).pre).isSome = true →
    (dlookup B (getRel (l.foldl (fun acc ppr =>
      let p := ppr.1
      if p = next ∨ p = node then acc
      else if ((dlookup p acc.dropped).getD []).contains next then acc
      else
        let acc2 :=
          if (dlookup next (getRel acc p).pre).isNone then
            let req := if hard ≠ 0 ∧ ((dlookup node (getRel acc p).pre).getD 0 &&& HARD ≠ 0)
              then HARD else SOFT
            let g := dmodify p (fun r => { r with pre := dinsert next (VIRTUAL ||| req) r.pre }) acc.graph
            { acc with graph := g }
          else acc
        if (dlookup p (getRel acc2 next).post).isNone then
          let g := dmodify next (fun r => { r with post := dinsert p VIRTUAL r.post }) acc2.graph
          { acc2 with graph := g }
        else acc2) acc) A).pre).isSome = true := by
  induction l with
  | nil => intro acc h; exact h
  | cons ppr rest ih =>
    intro acc h
    rw [List.foldl_cons]
    apply ih
    dsimp only
    repeat' split
    all_goals simp only [getRel] at h ⊢
    all_goals
      first
      | exact h
      | exact pre_isSome_predinsert _ _ _ _ _ _ h
      | exact pre_isSome_postmod _ _ _ _ _ (fun r => rfl) h
      | exact pre_isSome_postmod _ _ _ _ _ (fun r => rfl)
          (pre_isSome_predinsert _ _ _ _ _ _ h)

theorem drop_fold_post (hard node next A B : Nat) (l : List (Nat × Nat)) :
    ∀ (acc : RpmRelations),
    (dlookup A (getRel acc B).post).isSome = true →
    (dlookup A (getRel (l.foldl (fun acc ppr =>
      let p := ppr.1
      if p = next ∨ p = node then acc
      else if ((dlookup p acc.dropped).getD []).contains next then acc
      else
        let acc2 :=
          if (dlookup next (getRel acc p).pre).isNone then
            let req := if hard ≠ 0 ∧ ((dlookup node (getRel acc p).pre).getD 0 &&& HARD ≠ 0)
              then HARD else SOFT
            let g := dmodify p (fun r => { r with pre := dinsert next (VIRTUAL ||| req) r.pre }) acc.graph
            { acc with graph := g }
          else acc
        if (dlookup p (getRel acc2 next).post).isNone then
          let g := dmodify next (fun r => { r with post := dinsert p VIRTUAL r.post }) acc2.graph
          { acc2 with graph := g }
        else acc2) acc) B).post).isSome = true := by
  induction l with
  | nil => intro acc h; exact h
  | cons ppr rest ih =>
    intro acc h
    rw [List.foldl_cons]
    apply ih
    dsimp only
    repeat' split
    all_goals simp only [getRel] at h ⊢
    all_goals
      first
      | exact h
      | exact post_isSome_postdinsert _ _ _ _ _ _ h
      | exact post_isSome_premod _ _ _ _ _ (fun r => rfl) h
      | exact post_isSome_postdinsert _ _ _ _ _ _
          (post_isSome_premod _ _ _ _ _ (fun r => rfl) h)

theorem pre_isSome_predel (g : List (Nat × Relation)) (node next A B : Nat)
    (hne : ¬(node = A ∧ next = B))
    (h : (dlookup B ((dlookup A g).getD emptyRelation).pre).isSome = true) :
    (dlookup B ((dlookup A (dmodify node (fun r =>
      { r with pre := ddelete next r.pre }) g)).getD emptyRelation).pre).isSome = true := by
  rw [dlookup_dmodify]
  by_cases hn : node = A
  · rw [if_pos hn]
    have hnb : next ≠ B := fun hh => hne ⟨hn, hh⟩
    subst hn
    rcases hg : dlookup node g with _ | r
    · rw [hg] at h
      simp only [Option.getD_none, emptyRelation_pre, dlookup_nil, Option.isSome_none] at h
      exact absurd h (by decide)
    · rw [hg] at h
      simp only [Option.getD_some] at h
      simp only [Option.map_some', Option.getD_some]
      rw [dlookup_ddelete_ne next B _ hnb]
      exact h
  · rw [if_neg hn]
    exact h

theorem post_isSome_postdel (g : List (Nat × Relation)) (node next A B : Nat)
    (hne : ¬(node = A ∧ next = B))
    (h : (dlookup A ((dlookup B g).getD emptyRelation).post).isSome = true) :
    (dlookup A ((dlookup B (dmodify next (fun r =>
      { r with post := ddelete node r.post }) g)).getD emptyRelation).post).isSome = true := by
  rw [dlookup_dmodify]
  by_cases hn : next = B
  · rw [if_pos hn]
    have hna : node ≠ A := fun hh => hne ⟨hh, hn⟩
    subst hn
    rcases hg : dlookup next g with _ | r
    · rw [hg] at h
      simp only [Option.getD_none, emptyRelation_post, dlookup_nil, Option.isSome_none] at h
      exact absurd h (by decide)
    · rw [hg] at h
      simp only [Option.getD_some] at h
      simp only [Option.map_some', Option.getD_some]
      rw [dlookup_ddelete_ne node A _ hna]
      exact h
  · rw [if_neg hn]
    exact h

theorem drop_dropped_lookup (st : RpmRelations) (node next P : Nat) :
    dlookup P (dropRelation st node next).dropped =
      if node = P then some (((dlookup P st.dropped).getD []) ++ [next])
      else dlookup P st.dropped := by
  unfold dropRelation
  dsimp only
  rw [drop_fold_dropped]
  dsimp only
  rw [dlookup_dmodify]
  by_cases h : node = P
  · simp [h, dlookup_dsetdefault]
  · simp [h, dlookup_dsetdefault]

theorem drop_keys (st : RpmRelations) (node next : Nat) :
    (dropRelation st node next).graph.map Prod.fst = st.graph.map Prod.fst := by
  unfold dropRelation
  dsimp only
  rw [drop_fold_keys]
  dsimp only
  rw [dmodify_keys, dmodify_keys]

theorem drop_pre_isSome (st : RpmRelations) (node next A B : Nat)
    (hne : ¬(node = A ∧ next = B))
    (h : (dlookup B (getRel st A).pre).isSome = true) :
    (dlookup B (getRel (dropRelation st node next) A).pre).isSome = true := by
  unfold dropRelation
  dsimp only
  apply drop_fold_pre
  simp only [getRel] at h ⊢
  exact pre_isSome_postmod _ _ _ _ _ (fun r => rfl)
    (pre_isSome_predel _ _ _ _ _ hne h)

theorem drop_post_isSome (st : RpmRelations) (node next A B : Nat)
    (hne : ¬(node = A ∧ next = B))
    (h : (dlookup A (getRel st B).post).isSome = true) :
    (dlookup A (getRel (dropRelation st node next) B).post).isSome = true := by
  unfold dropRelation
  dsimp only
  apply drop_fold_post
  simp only [getRel] at h ⊢
  exact post_isSome_postdel _ _ _ _ _ hne
    (post_isSome_premod _ _ _ _ _ (fun r => rfl) h)

theorem drop_key_isSome (st : RpmRelations) (node next P : Nat)
    (h : (dlookup P st.graph).isSome = true) :
    (dlookup P (dropRelation st node next).graph).isSome = true := by
  rw [dlookup_isSome_iff, drop_keys]
  exact (dlookup_isSome_iff P st.graph).mp h

theorem einv_drop (A B node next : Nat) (st : RpmRelations) (order last : List Nat)
    (h : EInv A B st order last) : EInv A B (dropRelation st node next) order last := by
  unfold EInv at h ⊢
  rcases h with h1 | ⟨hab, hpre, hpost, hka, hkb⟩ | h3 | h4 | h5 | h6 | h7
  · left
    rw [drop_dropped_lookup]
    by_cases hn : node = A
    · rw [if_pos hn]
      simp only [Option.getD_some]
      simp only [List.contains] at h1 ⊢
      exact List.elem_eq_true_of_mem
        (List.mem_append_left _ (List.mem_of_elem_eq_true h1))
    · rw [if_neg hn]
      exact h1
  · by_cases hd : node = A ∧ next = B
    · left
      rw [drop_dropped_lookup, if_pos hd.1, ← hd.2]
      simp only [Option.getD_some]
      simp only [List.contains]
      exact List.elem_eq_true_of_mem
        (List.mem_append_right _ (List.mem_singleton.mpr rfl))
    · right
      left
      exact ⟨hab, drop_pre_isSome _ _ _ _ _ hd hpre,
        drop_post_isSome _ _ _ _ _ hd hpost,
        drop_key_isSome _ _ _ _ hka, drop_key_isSome _ _ _ _ hkb⟩
  · right; right; left
    exact ⟨h3.1, drop_key_isSome _ _ _ _ h3.2⟩
  · right; right; right; left
    exact h4
  · right; right; right; right; left
    exact h5
  · right; right; right; right; right; left
    exact h6
  · right; right; right; right; right; right
    exact ⟨h7.1, drop_key_isSome _ _ _ _ h7.2⟩

theorem rm_key_isSome' (st : RpmRelations) (n P : Nat) (hP : n ≠ P)
    (h : (dlookup P st.graph).isSome = true) :
    (dlookup P (removeRelation st n).graph).isSome = true := by
  rw [rm_key_isSome st n P hP]
  exact h

theorem einv_remove_last (A B n : Nat) (rel : Relation) (st : RpmRelations)
    (order last : List Nat)
    (hn : dlookup n st.graph = some rel) (hpost : rel.post.isEmpty = true)
    (h : EInv A B st order last) :
    EInv A B (removeRelation st n) order (n :: last) := by
  unfold EInv at h ⊢
  rcases h with h1 | ⟨hab, hpre, hpost2, hka, hkb⟩ | h3 | h4 | h5 | h6 | h7
  · left
    rw [rm_dropped]
    exact h1
  · by_cases hA : n = A
    · right; right; right; right; right; right
      refine ⟨hA ▸ List.mem_cons_self n last, ?_⟩
      exact rm_key_isSome' _ _ _ (fun hh => hab (hA ▸ hh ▸ rfl)) hkb
    · by_cases hB : n = B
      · exfalso
        subst hB
        rw [show getRel st n = rel by unfold getRel; rw [hn]; rfl] at hpost2
        rw [List.isEmpty_iff] at hpost
        rw [hpost] at hpost2
        simp [dlookup_nil] at hpost2
      · right; left
        rw [show dlookup B (getRel (removeRelation st n) A).pre =
          dlookup B (getRel st A).pre from rm_pre_lookup st n A B hA hB]
        rw [show dlookup A (getRel (removeRelation st n) B).post =
          dlookup A (getRel st B).post from rm_post_lookup st n A B hA hB]
        exact ⟨hab, hpre, hpost2, rm_key_isSome' _ _ _ hA hka, rm_key_isSome' _ _ _ hB hkb⟩
  · by_cases hA : n = A
    · right; right; right; right; left
      exact ⟨h3.1, hA ▸ List.mem_cons_self n last⟩
    · right; right; left
      exact ⟨h3.1, rm_key_isSome' _ _ _ hA h3.2⟩
  · right; right; right; left
    exact h4
  · right; right; right; right; left
    exact ⟨h5.1, List.mem_cons_of_mem n h5.2⟩
  · obtain ⟨i, j, hij, hi, hj⟩ := h6
    right; right; right; right; right; left
    exact ⟨i + 1, j + 1, Nat.succ_lt_succ hij, by
      rw [List.getElem?_cons_succ]; exact hi, by
      rw [List.getElem?_cons_succ]; exact hj⟩
  · by_cases hB : n = B
    · obtain ⟨j0, hj0⟩ := List.mem_iff_getElem?.mp h7.1
      right; right; right; right; right; left
      exact ⟨0, j0 + 1, Nat.succ_pos j0, by rw [hB, List.getElem?_cons_zero], by
        rw [List.getElem?_cons_succ]; exact hj0⟩
    · right; right; right; right; right; right
      exact ⟨List.mem_cons_of_mem n h7.1, rm_key_isSome' _ _ _ hB h7.2⟩

theorem einv_emit (A B n : Nat) (rel : Relation) (st : RpmRelations)
    (order last : List Nat)
    (hn : dlookup n st.graph = some rel) (hpre : rel.pre.isEmpty = true)
    (h : EInv A B st order last) :
    EInv A B (removeRelation st n) (order ++ [n]) last := by
  unfold EInv at h ⊢
  rcases h with h1 | ⟨hab, hpre2, hpost2, hka, hkb⟩ | h3 | h4 | h5 | h6 | h7
  · left
    rw [rm_dropped]
    exact h1
  · by_cases hA : n = A
    · exfalso
      subst hA
      rw [show getRel st n = rel by unfold getRel; rw [hn]; rfl] at hpre2
      rw [List.isEmpty_iff] at hpre
      rw [hpre] at hpre2
      simp [dlookup_nil] at hpre2
    · by_cases hB : n = B
      · right; right; left
        refine ⟨hB ▸ List.mem_append_right order (List.mem_singleton.mpr rfl), ?_⟩
        exact rm_key_isSome' _ _ _ hA hka
      · right; left
        rw [show dlookup B (getRel (removeRelation st n) A).pre =
          dlookup B (getRel st A).pre from rm_pre_lookup st n A B hA hB]
        rw [show dlookup A (getRel (removeRelation st n) B).post =
          dlookup A (getRel st B).post from rm_post_lookup st n A B hA hB]
        exact ⟨hab, hpre2, hpost2, rm_key_isSome' _ _ _ hA hka, rm_key_isSome' _ _ _ hB hkb⟩
  · by_cases hA : n = A
    · right; right; right; left
      obtain ⟨i, hi⟩ := List.mem_iff_getElem?.mp h3.1
      have hilt : i < order.length := by
        rcases List.getElem?_eq_some_iff.mp hi with ⟨hh, _⟩
        exact hh
      exact ⟨i, order.length, hilt, by
        rw [List.getElem?_append_left hilt]; exact hi, by
        rw [hA, List.getElem?_concat_length]⟩
    · right; right; left
      exact ⟨List.mem_append_left _ h3.1, rm_key_isSome' _ _ _ hA h3.2⟩
  · obtain ⟨i, j, hij, hi, hj⟩ := h4
    have hjlt : j < order.length := by
      rcases List.getElem?_eq_some_iff.mp hj with ⟨hh, _⟩
      exact hh
    right; right; right; left
    exact ⟨i, j, hij, by
      rw [List.getElem?_append_left (Nat.lt_trans hij hjlt)]; exact hi, by
      rw [List.getElem?_append_left hjlt]; exact hj⟩
  · right; right; right; right; left
    exact ⟨List.mem_append_left _ h5.1, h5.2⟩
  · right; right; right; right; right; left
    exact h6
  · by_cases hB : n = B
    · right; right; right; right; left
      exact ⟨hB ▸ List.mem_append_right order (List.mem_singleton.mpr rfl), h7.1⟩
    · right; right; right; right; right; right
      exact ⟨h7.1, rm_key_isSome' _ _ _ hB h7.2⟩

theorem rm_nodup2 (st : RpmRelations) (n : Nat)
    (hn : (st.graph.map Prod.fst).Nodup) :
    (((removeRelation st n).graph.map Prod.fst)).Nodup := rm_nodup st n hn

theorem scan_pres (A B : Nat) (order : List Nat) :
    ∀ (fuel : Nat) (st : RpmRelations) (last : List Nat) (i : Nat) (found : Bool)
      (st2 : RpmRelations) (last2 : List Nat) (found2 : Bool),
    separateScan fuel st last i found = some (st2, last2, found2) →
    (st.graph.map Prod.fst).Nodup → EInv A B st order last →
    (st2.graph.map Prod.fst).Nodup ∧ EInv A B st2 order last2 := by
  intro fuel
  induction fuel with
  | zero =>
    intro st last i found st2 last2 found2 h
    simp [separateScan] at h
  | succ fuel ih =>
    intro st last i found st2 last2 found2 h hn hi
    rw [separateScan] at h
    split at h
    · rename_i hlt
      dsimp only at h
      split at h
      · rename_i hpost
        have hmem : (st.graph.get ⟨i, hlt⟩) ∈ st.graph := List.get_mem _ _ _
        have hdl : dlookup (st.graph.get ⟨i, hlt⟩).1 st.graph =
            some (st.graph.get ⟨i, hlt⟩).2 :=
          dlookup_of_mem_nodup _ _ _ hn (by
            rw [show ((st.graph.get ⟨i, hlt⟩).1, (st.graph.get ⟨i, hlt⟩).2) =
              st.graph.get ⟨i, hlt⟩ from rfl]
            exact hmem)
        exact ih _ _ _ _ _ _ _ h (rm_nodup2 _ _ hn)
          (einv_remove_last A B _ _ st order last hdl hpost hi)
      · exact ih _ _ _ _ _ _ _ h hn hi
    · injection h with h1
      injection h1 with ha hb
      injection hb with hb1 hb2
      subst ha
      subst hb1
      exact ⟨hn, hi⟩

theorem splnl_pres (A B : Nat) (order : List Nat) :
    ∀ (fuel : Nat) (st : RpmRelations) (last : List Nat)
      (st1 : RpmRelations) (last1 : List Nat),
    separatePostLeafNodes fuel st last = some (st1, last1) →
    (st.graph.map Prod.fst).Nodup → EInv A B st order last →
    (st1.graph.map Prod.fst).Nodup ∧ EInv A B st1 order last1 := by
  intro fuel
  induction fuel with
  | zero =>
    intro st last st1 last1 h
    simp [separatePostLeafNodes] at h
  | succ fuel ih =>
    intro st last st1 last1 h hn hi
    rw [separatePostLeafNodes] at h
    split at h
    · injection h with h1
      injection h1 with ha hb
      subst ha
      subst hb
      exact ⟨hn, hi⟩
    · split at h
      · exact absurd h (by simp)
      · rename_i st2 last2 found heq
        obtain ⟨hn2, hi2⟩ := scan_pres A B order fuel st last 0 false st2 last2 found heq hn hi
        split at h
        · exact ih _ _ _ _ h hn2 hi2
        · injection h with h1
          injection h1 with ha hb
          subst ha
          subst hb
          exact ⟨hn2, hi2⟩

theorem gnln_fold_aux :
    ∀ (l : List (Nat × Relation)) (G : List (Nat × Relation))
      (acc : Option (Nat × Nat)) (q : Nat × Nat),
    (∀ x ∈ l, x ∈ G) →
    (∀ q2 : Nat × Nat, acc = some q2 →
      ∃ rel, (q2.1, rel) ∈ G ∧ rel.pre.isEmpty = true) →
    l.foldl (fun acc pr =>
      if pr.2.pre.isEmpty && (match acc with
        | none => true
        | some q2 => decide (pr.2.post.length > (q2 : Nat × Nat).2)) then
        some (pr.1, pr.2.post.length)
      else acc) acc = some q →
    ∃ rel, (q.1, rel) ∈ G ∧ rel.pre.isEmpty = true := by
  intro l
  induction l with
  | nil =>
    intro G acc q hsub hacc h
    exact hacc q h
  | cons x rest ih =>
    intro G acc q hsub hacc h
    rw [List.foldl_cons] at h
    refine ih G _ q (fun y hy => hsub y (List.mem_cons_of_mem x hy)) ?_ h
    intro q2 hq2
    split at hq2
    · rename_i hcond
      injection hq2 with hq2
      subst hq2
      simp only [Bool.and_eq_true] at hcond
      exact ⟨x.2, hsub x (List.mem_cons_self x rest), hcond.1⟩
    · exact hacc q2 hq2

theorem gnln_some (st : RpmRelations) (n : Nat) (st2 : RpmRelations)
    (h : getNextLeafNode st = (some n, st2)) :
    st2 = removeRelation st n ∧
      ∃ rel, (n, rel) ∈ st.graph ∧ rel.pre.isEmpty = true := by
  unfold getNextLeafNode at h
  dsimp only at h
  split at h
  · rename_i q heq
    injection h with h1 h2
    injection h1 with h1
    subst h1
    subst h2
    exact ⟨rfl, gnln_fold_aux st.graph st.graph none q (fun x hx => hx)
      (fun q2 hq2 => by simp at hq2) heq⟩
  · injection h with h1 h2
    simp at h1

theorem gnln_none (st : RpmRelations) (st2 : RpmRelations)
    (h : getNextLeafNode st = (none, st2)) : st2 = st := by
  unfold getNextLeafNode at h
  dsimp only at h
  split at h
  · injection h with h1 h2
    simp at h1
  · injection h with h1 h2
    exact h2.symm

theorem breakup_some (st : RpmRelations) (loops : List (List Nat))
    (loop : List Nat) (st3 : RpmRelations)
    (h : breakupLoop st loops loop = some st3) :
    ∃ a b : Nat, st3 = dropRelation st a b := by
  unfold breakupLoop at h
  dsimp only at h
  split at h
  · rename_i st4 heq
    injection h with h1
    subst h1
    unfold breakupLoopStep at heq
    dsimp only at heq
    split at heq
    · rename_i a heq2
      injection heq with heq
      exact ⟨a.1, a.2, heq.symm⟩
    · split at heq
      · rename_i a heq2
        injection heq with heq
        exact ⟨a.1, a.2, heq.symm⟩
      · exact absurd heq (by simp)
  · rename_i heq
    unfold breakupLoopStep at h
    dsimp only at h
    split at h
    · rename_i a heq2
      injection h with h1
      exact ⟨a.1, a.2, h1.symm⟩
    · split at h
      · rename_i a heq2
        injection h with h1
        exact ⟨a.1, a.2, h1.symm⟩
      · exact absurd h (by simp)

theorem einv_final (A B : Nat) (st : RpmRelations) (order last : List Nat)
    (hemp : st.graph = []) (h : EInv A B st order last) :
    ((dlookup A st.dropped).getD []).contains B = true
    ∨ ∃ i j : Nat, i < j ∧ (order ++ last)[i]? = some B ∧
        (order ++ last)[j]? = some A := by
  unfold EInv at h
  rcases h with h1 | ⟨hab, hpre, hpost, hka, hkb⟩ | h3 | h4 | h5 | h6 | h7
  · exact Or.inl h1
  · rw [hemp] at hka
    simp [dlookup_nil] at hka
  · rw [hemp] at h3
    simp [dlookup_nil] at h3
  · obtain ⟨i, j, hij, hi, hj⟩ := h4
    have hjlt : j < order.length := (List.getElem?_eq_some_iff.mp hj).1
    exact Or.inr ⟨i, j, hij, by
      rw [List.getElem?_append_left (Nat.lt_trans hij hjlt)]; exact hi, by
      rw [List.getElem?_append_left hjlt]; exact hj⟩
  · obtain ⟨i, hi⟩ := List.mem_iff_getElem?.mp h5.1
    obtain ⟨j0, hj0⟩ := List.mem_iff_getElem?.mp h5.2
    have hilt : i < order.length := (List.getElem?_eq_some_iff.mp hi).1
    refine Or.inr ⟨i, order.length + j0, Nat.lt_of_lt_of_le hilt (Nat.le_add_right _ _), by
      rw [List.getElem?_append_left hilt]; exact hi, ?_⟩
    rw [List.getElem?_append_right (Nat.le_add_right _ _)]
    rw [Nat.add_sub_cancel_left]
    exact hj0
  · obtain ⟨i, j, hij, hi, hj⟩ := h6
    refine Or.inr ⟨order.length + i, order.length + j,
      Nat.add_lt_add_left hij _, ?_, ?_⟩
    · rw [List.getElem?_append_right (Nat.le_add_right _ _), Nat.add_sub_cancel_left]
      exact hi
    · rw [List.getElem?_append_right (Nat.le_add_right _ _), Nat.add_sub_cancel_left]
      exact hj
  · rw [hemp] at h7
    simp [dlookup_nil] at h7

theorem drop_nodup (st : RpmRelations) (a b : Nat)
    (hn : (st.graph.map Prod.fst).Nodup) :
    ((dropRelation st a b).graph.map Prod.fst).Nodup := by
  rw [drop_keys]
  exact hn

theorem genOrderLoop_inv (A B : Nat) :
    ∀ (fuel : Nat) (st : RpmRelations) (order last orderF lastF : List Nat)
      (stF : RpmRelations),
    genOrderLoop fuel st order last = some (orderF, lastF, stF) →
    (st.graph.map Prod.fst).Nodup → EInv A B st order last →
    (((dlookup A stF.dropped).getD []).contains B = true
      ∨ ∃ i j : Nat, i < j ∧ (orderF ++ lastF)[i]? = some B ∧
          (orderF ++ lastF)[j]? = some A) := by
  intro fuel
  induction fuel with
  | zero =>
    intro st order last orderF lastF stF h
    simp [genOrderLoop] at h
  | succ fuel ih =>
    intro st order last orderF lastF stF h hn hi
    rw [genOrderLoop] at h
    split at h
    · rename_i hemp
      injection h with h1
      injection h1 with ha hb
      injection hb with hb1 hb2
      subst ha
      subst hb1
      subst hb2
      exact einv_final A B st order last (List.isEmpty_iff.mp hemp) hi
    · split at h
      · exact absurd h (by simp)
      · rename_i st1 last1 heqs
        obtain ⟨hn1, hi1⟩ := splnl_pres A B order fuel st last st1 last1 heqs hn hi
        split at h
        · rename_i hemp1
          injection h with h1
          injection h1 with ha hb
          injection hb with hb1 hb2
          subst ha
          subst hb1
          subst hb2
          exact einv_final A B _ _ _ (List.isEmpty_iff.mp hemp1) hi1
        · split at h
          · rename_i nxt st2 heqg
            obtain ⟨hst2, rel, hmem, hpre⟩ := gnln_some st1 nxt st2 heqg
            subst hst2
            have hdl : dlookup nxt st1.graph = some rel :=
              dlookup_of_mem_nodup _ _ _ hn1 hmem
            exact ih _ _ _ _ _ _ h (rm_nodup2 _ _ hn1)
              (einv_emit A B nxt rel st1 order last1 hdl hpre hi1)
          · rename_i st2 heqg
            have hst2 : st2 = st1 := gnln_none st1 st2 heqg
            subst hst2
            split at h
            · exact absurd h (by simp)
            · rename_i loops heql
              split at h
              · exact absurd h (by simp)
              · split at h
                · exact absurd h (by simp)
                · rename_i bestLoop restLoops heqsort
                  split at h
                  · exact absurd h (by simp)
                  · rename_i st3 heqb
                    obtain ⟨a, b, hst3⟩ := breakup_some _ _ _ _ heqb
                    subst hst3
                    exact ih _ _ _ _ _ _ h (drop_nodup _ _ _ hn1)
                      (einv_drop A B a b st2 order last1 hi1)

theorem relationsInit_values (rpms : List Nat) :
    ∀ p v, dlookup p (relationsInit rpms).graph = some v → v = emptyRelation := by
  unfold relationsInit
  dsimp only
  have key : ∀ (l : List Nat) (g : List (Nat × Relation)),
      (∀ p v, dlookup p g = some v → v = emptyRelation) →
      ∀ p v, dlookup p (l.foldl (fun g p =>
        if (dlookup p g).isSome then dinsert p emptyRelation g
        else g ++ [(p, emptyRelation)]) g) = some v → v = emptyRelation := by
    intro l
    induction l with
    | nil => intro g hg; exact hg
    | cons x rest ih =>
      intro g hg
      rw [List.foldl_cons]
      apply ih
      intro p v hv
      split at hv
      · rw [dlookup_dinsert] at hv
        by_cases hx : x = p
        · rw [if_pos hx] at hv
          injection hv with hv
          exact hv.symm
        · rw [if_neg hx] at hv
          exact hg p v hv
      · rcases hp : dlookup p g with _ | v2
        · rw [dlookup_append_none p g _ hp] at hv
          by_cases hx : x = p
          · simp [dlookup, hx] at hv
            exact hv.symm
          · simp [dlookup, hx] at hv
        · rw [dlookup_some_append p v2 g _ hp] at hv
          injection hv with hv
          subst hv
          exact hg p v2 hp
  exact key rpms [] (fun p v hv => by simp [dlookup_nil] at hv)

theorem relationsInit_nodup (rpms : List Nat) :
    ((relationsInit rpms).graph.map Prod.fst).Nodup := by
  unfold relationsInit
  dsimp only
  have key : ∀ (l : List Nat) (g : List (Nat × Relation)),
      (g.map Prod.fst).Nodup →
      ((l.foldl (fun g p =>
        if (dlookup p g).isSome then dinsert p emptyRelation g
        else g ++ [(p, emptyRelation)]) g).map Prod.fst).Nodup := by
    intro l
    induction l with
    | nil => intro g hg; exact hg
    | cons x rest ih =>
      intro g hg
      rw [List.foldl_cons]
      apply ih
      split
      · rename_i hs
        rw [dinsert_keys_of_present x emptyRelation g hs]
        exact hg
      · rename_i hs
        have hx : x ∉ g.map Prod.fst := by
          intro hm
          exact hs ((dlookup_isSome_iff x g).mpr hm)
        simp only [List.map_append, List.map_cons, List.map_nil]
        simp [List.nodup_append, hg, hx]
  exact key rpms [] (by simp)

theorem sym_relationsInit (rpms : List Nat) : Sym (relationsInit rpms) := by
  intro A B h
  exfalso
  unfold getRel at h
  rcases hg : dlookup A (relationsInit rpms).graph with _ | v
  · rw [hg] at h
    simp only [Option.getD_none, emptyRelation_pre, dlookup_nil, Option.isSome_none] at h
    exact absurd h (by decide)
  · rw [hg] at h
    rw [relationsInit_values rpms A v hg] at h
    simp only [Option.getD_some, emptyRelation_pre, dlookup_nil, Option.isSome_none] at h
    exact absurd h (by decide)

theorem addRelation_keys (st : RpmRelations) (pkg pre f2 : Nat) :
    (addRelation st pkg pre f2).graph.map Prod.fst = st.graph.map Prod.fst := by
  unfold addRelation
  split
  · dsimp only
    rw [dmodify_keys, dmodify_keys]
  · rfl

theorem addRelation_dropped (st : RpmRelations) (pkg pre f2 : Nat) :
    (addRelation st pkg pre f2).dropped = st.dropped := by
  unfold addRelation
  split
  · rfl
  · rfl

theorem sym_addRelation (st : RpmRelations) (pkg pre f2 : Nat) (hne : pkg ≠ pre)
    (hs : Sym st) : Sym (addRelation st pkg pre f2) := by
  unfold addRelation
  split
  · rename_i hguard
    intro A B h
    unfold getRel at h ⊢
    dsimp only at h ⊢
    have hkey : ∀ P : Nat, (dlookup P st.graph).isSome = true →
        (dlookup P (dmodify pre (fun r => { r with post := dinsert pkg 1 r.post })
          (dmodify pkg (fun r => { r with pre := dinsert pre f2 r.pre })
            st.graph))).isSome = true := by
      intro P hP
      rw [dlookup_isSome_iff, dmodify_keys, dmodify_keys]
      exact (dlookup_isSome_iff _ _).mp hP
    rw [pre_dmodify_of _ _ (fun r => { r with post := dinsert pkg 1 r.post }) _
      (fun r => rfl)] at h
    rw [dlookup_dmodify] at h
    by_cases hA : pkg = A
    · rw [if_pos hA] at h
      subst hA
      rcases hg : dlookup pkg st.graph with _ | r
      · rw [hg] at h
        simp only [Option.map_none', Option.getD_none, emptyRelation_pre,
          dlookup_nil, Option.isSome_none] at h
        exact absurd h (by decide)
      · rw [hg] at h
        simp only [Option.map_some', Option.getD_some] at h
        rw [dlookup_dinsert] at h
        by_cases hB : pre = B
        · subst hB
          refine ⟨hne, ?_, hkey pkg hguard.1, hkey pre hguard.2⟩
          rw [dlookup_dmodify, if_pos rfl]
          have hg1 : dlookup pre (dmodify pkg (fun r =>
              { r with pre := dinsert pre f2 r.pre }) st.graph) =
              dlookup pre st.graph := by
            rw [dlookup_dmodify, if_neg hne]
          rw [hg1]
          rcases hg2 : dlookup pre st.graph with _ | r2
          · have := hguard.2
            rw [hg2] at this
            simp at this
          · simp only [Option.map_some', Option.getD_some]
            rw [dlookup_dinsert, if_pos rfl]
            rfl
        · rw [if_neg hB] at h
          obtain ⟨hab, hpost, hka, hkb⟩ := hs pkg B (by
            unfold getRel
            rw [hg]
            simp only [Option.getD_some]
            exact h)
          exact ⟨hab, post_isSome_postdinsert _ _ _ _ _ _
            (post_isSome_premod _ _ _ _ _ (fun r => rfl) hpost),
            hkey pkg hka, hkey B hkb⟩
    · rw [if_neg hA] at h
      obtain ⟨hab, hpost, hka, hkb⟩ := hs A B (by
        unfold getRel
        exact h)
      exact ⟨hab, post_isSome_postdinsert _ _ _ _ _ _
        (post_isSome_premod _ _ _ _ _ (fun r => rfl) hpost),
        hkey A hka, hkey B hkb⟩
  · intro A B h
    exact hs A B h

theorem sym_inner3 (resolved : List Nat) (pkg f2 : Nat)
    (hpk : resolved.contains pkg = false) :
    ∀ (l : List Nat) (st : RpmRelations), (∀ x ∈ l, x ∈ resolved) → Sym st →
    Sym (l.foldl (fun st3 pre =>
      if f2 &&& HARD ≠ 0 ∨ (dlookup pre (getRel st3 pkg).pre).isNone then
        addRelation st3 pkg pre f2
      else st3) st) := by
  intro l
  induction l with
  | nil => intro st hsub hs; exact hs
  | cons x rest ih =>
    intro st hsub hs
    rw [List.foldl_cons]
    refine ih _ (fun y hy => hsub y (List.mem_cons_of_mem x hy)) ?_
    split
    · have hxr : x ∈ resolved := hsub x (List.mem_cons_self x rest)
      have hne : pkg ≠ x := by
        intro hh
        subst hh
        rw [show resolved.contains pkg = List.elem pkg resolved from rfl] at hpk
        rw [List.elem_eq_true_of_mem hxr] at hpk
        exact absurd hpk (by decide)
      exact sym_addRelation st pkg x f2 hne hs
    · exact hs

theorem sym_inner2 (resolved : List Nat) (f2 : Nat) :
    ∀ (pkgs : List Nat) (st : RpmRelations), Sym st →
    Sym (pkgs.foldl (fun st2 pkg =>
      if resolved.contains pkg then st2
      else
        resolved.foldl (fun st3 pre =>
          if f2 &&& HARD ≠ 0 ∨ (dlookup pre (getRel st3 pkg).pre).isNone then
            addRelation st3 pkg pre f2
          else st3) st2) st) := by
  intro pkgs
  induction pkgs with
  | nil => intro st hs; exact hs
  | cons pkg rest ih =>
    intro st hs
    rw [List.foldl_cons]
    apply ih
    split
    · exact hs
    · rename_i hc
      exact sym_inner3 resolved pkg f2 (Bool.not_eq_true _ ▸ hc) resolved st
        (fun x hx => hx) hs

theorem sym_genRelations (rpms : List Nat) (operation : String)
    (resolver : RpmResolver)
    (requires_list : List ((String × Nat × String) × List Nat)) :
    Sym (genRelations rpms operation resolver requires_list) := by
  unfold genRelations
  have key : ∀ (l : List ((String × Nat × String) × List Nat)) (st : RpmRelations),
      Sym st →
      Sym (l.foldl (fun st entry =>
        let ((n, f, v), reqPkgs) := entry
        if n.take 7 = "rpmlib(" ∨ n.take 7 = "config(" then st
        else
          let resolved := resolverSearchDep resolver n f v
          let f2 := operationFlag f operation
          reqPkgs.foldl (fun st2 pkg =>
            if resolved.contains pkg then st2
            else
              resolved.foldl (fun st3 pre =>
                if f2 &&& HARD ≠ 0 ∨ (dlookup pre (getRel st3 pkg).pre).isNone then
                  addRelation st3 pkg pre f2
                else st3) st2) st) st) := by
    intro l
    induction l with
    | nil => intro st hs; exact hs
    | cons entry rest ih =>
      intro st hs
      rw [List.foldl_cons]
      apply ih
      obtain ⟨⟨n, f, v⟩, reqPkgs⟩ := entry
      dsimp only
      split
      · exact hs
      · exact sym_inner2 _ _ reqPkgs st hs
  exact key requires_list (relationsInit rpms) (sym_relationsInit rpms)

theorem keys_inner3 (pkg f2 : Nat) :
    ∀ (l : List Nat) (st : RpmRelations),
    (l.foldl (fun st3 pre =>
      if f2 &&& HARD ≠ 0 ∨ (dlookup pre (getRel st3 pkg).pre).isNone then
        addRelation st3 pkg pre f2
      else st3) st).graph.map Prod.fst = st.graph.map Prod.fst := by
  intro l
  induction l with
  | nil => intro st; rfl
  | cons x rest ih =>
    intro st
    rw [List.foldl_cons, ih]
    split
    · rw [addRelation_keys]
    · rfl

theorem keys_inner2 (resolved : List Nat) (f2 : Nat) :
    ∀ (pkgs : List Nat) (st : RpmRelations),
    (pkgs.foldl (fun st2 pkg =>
      if resolved.contains pkg then st2
      else
        resolved.foldl (fun st3 pre =>
          if f2 &&& HARD ≠ 0 ∨ (dlookup pre (getRel st3 pkg).pre).isNone then
            addRelation st3 pkg pre f2
          else st3) st2) st).graph.map Prod.fst = st.graph.map Prod.fst := by
  intro pkgs
  induction pkgs with
  | nil => intro st; rfl
  | cons pkg rest ih =>
    intro st
    rw [List.foldl_cons, ih]
    split
    · rfl
    · rw [keys_inner3]

theorem genRelations_nodup (rpms : List Nat) (operation : String)
    (resolver : RpmResolver)
    (requires_list : List ((String × Nat × String) × List Nat)) :
    ((genRelations rpms operation resolver requires_list).graph.map Prod.fst).Nodup := by
  unfold genRelations
  have key : ∀ (l : List ((String × Nat × String) × List Nat)) (st : RpmRelations),
      (l.foldl (fun st entry =>
        let ((n, f, v), reqPkgs) := entry
        if n.take 7 = "rpmlib(" ∨ n.take 7 = "config(" then st
        else
          let resolved := resolverSearchDep resolver n f v
          let f2 := operationFlag f operation
          reqPkgs.foldl (fun st2 pkg =>
            if resolved.contains pkg then st2
            else
              resolved.foldl (fun st3 pre =>
                if f2 &&& HARD ≠ 0 ∨ (dlookup pre (getRel st3 pkg).pre).isNone then
                  addRelation st3 pkg pre f2
                else st3) st2) st) st).graph.map Prod.fst = st.graph.map Prod.fst := by
    intro l
    induction l with
    | nil => intro st; rfl
    | cons entry rest ih =>
      intro st
      rw [List.foldl_cons, ih]
      obtain ⟨⟨n, f, v⟩, reqPkgs⟩ := entry
      dsimp only
      split
      · rfl
      · rw [keys_inner2]
  rw [key]
  exact relationsInit_nodup rpms

/-- C1: for every graph built by RpmOrderer.genRelations and every
ordering _genOrder returns (non-None), every pre-edge (A requires B)
present in the built graph whose drop was not recorded during loop
breaking has its provider B emitted strictly earlier than its requirer A
in the final order.  All edges genRelations adds carry SOFT or HARD
flags; dropped arcs are looked up in the final state's dropped record. -/
theorem c1_genOrder_spec (rpms : List Nat) (operation : String)
    (resolver : RpmResolver)
    (requires_list : List ((String × Nat × String) × List Nat)) (fuel : Nat)
    (A B : Nat) (res : List Nat) (stF : RpmRelations)
    (hrun : genOrder fuel (genRelations rpms operation resolver requires_list) =
      some (res, stF))
    (hedge : (dlookup B (getRel (genRelations rpms operation resolver
      requires_list) A).pre).isSome = true)
    (hnodrop : ((dlookup A stF.dropped).getD []).contains B = false) :
    ∃ i j : Nat, i < j ∧ res[i]? = some B ∧ res[j]? = some A := by
  unfold genOrder at hrun
  rcases hl : genOrderLoop fuel (genRelations rpms operation resolver
      requires_list) [] [] with _ | ⟨orderF, lastF2⟩
  · rw [hl] at hrun
    simp at hrun
  · obtain ⟨lastF, stF2⟩ := lastF2
    rw [hl] at hrun
    simp only [Option.map_some'] at hrun
    injection hrun with hrun
    injection hrun with h1 h2
    obtain ⟨hab, hpost, hka, hkb⟩ := sym_genRelations rpms operation resolver
      requires_list A B hedge
    have einv0 : EInv A B (genRelations rpms operation resolver requires_list)
        [] [] := Or.inr (Or.inl ⟨hab, hedge, hpost, hka, hkb⟩)
    rcases genOrderLoop_inv A B fuel _ [] [] orderF lastF stF2 hl
        (genRelations_nodup rpms operation resolver requires_list) einv0 with
      hc | hgood
    · rw [← h2] at hnodrop
      rw [hc] at hnodrop
      exact absurd hnodrop (by decide)
    · rw [h1] at hgood
      exact hgood

/-- Witness for C1: package 11 requires "a" provided by package 10;
genOrder emits [10, 11] and drops nothing. -/
theorem c1_genOrder_spec_witness :
    ∃ i j : Nat, i < j ∧ ([10, 11] : List Nat)[i]? = some 10 ∧
      ([10, 11] : List Nat)[j]? = some 11 :=
  c1_genOrder_spec [10, 11] OP_INSTALL exOrdResolver exReqList 5 11 10
    [10, 11] ⟨[], []⟩ (by decide) (by decide) (by decide)


end Pyrpm
